import Mathlib

/-!
Shallow embedding of `bump_version.py` (basicmicro/basicmicro_python).

File contents, commit messages and version strings are modelled as `List Char`.
Python exceptions are modelled with `Except PyErr`.  The two manifest files the
script touches (`basicmicro/__init__.py` and `setup.py`) are modelled as a
record `FS` with one field per file; the git commands used by
`get_commits_since_last_tag` are modelled as oracle inputs (a `Git` record).

The three regular expressions the script uses,

  * `__version__ = ["\']([^"\']+)["\']`   (read/write of `__init__.py`),
  * `version="([^"]+)"`                   (read of `setup.py`, sync rewrite),
  * `version="[^"]+",`                    (write of `setup.py` in
    `update_version_files` — note the trailing comma),

are embedded directly: each body class `[^X]+` excludes the character that
closes the match, so Python's leftmost greedy search is equivalent to "take
the maximal run up to the next delimiter", which is what the matchers below
compute.  `re.search` is a left-to-right scan returning the first match;
`re.sub` is the same scan replacing every non-overlapping match.
-/

set_option autoImplicit false

/-- Python exceptions raised by the script: `ValueError` (with its message) and
`IndexError` (from out-of-range list indexing in `bump_version`). -/
inductive PyErr where
  | valueError (msg : String)
  | indexError
deriving DecidableEq, Repr

/-- Big-endian decimal digits to a natural number (the value `int()` computes
on a string of ASCII digits). -/
def digitsToNat (l : List Char) : Nat :=
  l.foldl (fun a c => a * 10 + (c.toNat - 48)) 0

/-- Decimal rendering of a natural number, as Python `str` does for
non-negative integers. -/
def natToChars (n : Nat) : List Char :=
  if n = 0 then ['0'] else ((Nat.digits 10 n).reverse.map Nat.digitChar)

/-- Decimal rendering of an integer (Python `str` on `int`). -/
def intToChars (i : Int) : List Char :=
  if i < 0 then '-' :: natToChars i.natAbs else natToChars i.toNat

/-- Python `s.split('.')`: splits on every dot, keeping empty pieces
(`"".split('.') == [""]`, `"1..2".split('.') == ["1","","2"]`). -/
def splitDot : List Char → List (List Char)
  | [] => [[]]
  | c :: cs =>
    if c = '.' then [] :: splitDot cs
    else
      match splitDot cs with
      | [] => [[c]]
      | p :: ps => (c :: p) :: ps

/-- A run of ASCII digits parsed to an integer value; anything else raises
`ValueError`.  (`int()` is modelled on sign + decimal digits, the alphabet
this script ever feeds it.) -/
def parseDigits (l : List Char) : Except PyErr Int :=
  if l ≠ [] ∧ l.all Char.isDigit then .ok (Int.ofNat (digitsToNat l))
  else .error (.valueError ("invalid literal for int() with base 10"))

/-- Python `int(s)` restricted to an optional sign followed by digits. -/
def pyInt (l : List Char) : Except PyErr Int :=
  match l with
  | [] => .error (.valueError ("invalid literal for int() with base 10"))
  | c :: rest =>
    if c = '-' then (parseDigits rest).map (fun i => -i)
    else if c = '+' then parseDigits rest
    else parseDigits (c :: rest)

/-- `list(map(int, pieces))`: left to right, first `ValueError` propagates. -/
def mapPyInt : List (List Char) → Except PyErr (List Int)
  | [] => .ok []
  | s :: rest =>
    match pyInt s with
    | .error e => .error e
    | .ok i =>
      match mapPyInt rest with
      | .error e => .error e
      | .ok is => .ok (i :: is)

/-- Python list read `l[i]` (non-negative index): `IndexError` out of range. -/
def pyGet : List Int → Nat → Except PyErr Int
  | [], _ => .error .indexError
  | v :: _, 0 => .ok v
  | _ :: rest, i + 1 => pyGet rest i

/-- Python list write `l[i] = v` (non-negative index): `IndexError` out of
range. -/
def pySet : List Int → Nat → Int → Except PyErr (List Int)
  | [], _, _ => .error .indexError
  | _ :: rest, 0, v => .ok (v :: rest)
  | a :: rest, i + 1, v =>
    match pySet rest i v with
    | .ok r => .ok (a :: r)
    | .error e => .error e

/-- `f"{parts[0]}.{parts[1]}.{parts[2]}"`. -/
def formatVer (parts : List Int) : Except PyErr (List Char) := do
  let a ← pyGet parts 0
  let b ← pyGet parts 1
  let c ← pyGet parts 2
  .ok (intToChars a ++ '.' :: intToChars b ++ '.' :: intToChars c)

/-- The in-place index mutations `bump_version` performs on `parts`,
branching on the bump type. -/
def bumpParts (bump_type : String) (parts : List Int) : Except PyErr (List Int) :=
  if bump_type = ("major") then do
    let p0 ← pyGet parts 0
    let parts1 ← pySet parts 0 (p0 + 1)
    let parts2 ← pySet parts1 1 0
    pySet parts2 2 0
  else if bump_type = ("minor") then do
    let p1 ← pyGet parts 1
    let parts1 ← pySet parts 1 (p1 + 1)
    pySet parts1 2 0
  else if bump_type = ("patch") then do
    let p2 ← pyGet parts 2
    pySet parts 2 (p2 + 1)
  else .error (.valueError (("Invalid bump type: ") ++ bump_type))

/-- `bump_version(current_version, bump_type)` from the script: split on dots,
parse each piece with `int`, mutate indices 0..2 per the bump type, format the
first three components. -/
def bump_version (current_version : List Char) (bump_type : String) :
    Except PyErr (List Char) := do
  let parts ← mapPyInt (splitDot current_version)
  let parts2 ← bumpParts bump_type parts
  formatVer parts2

/-- The textual form `"x.y.z"` of a three-component version. -/
def renderVer (x y z : Nat) : List Char :=
  natToChars x ++ '.' :: natToChars y ++ '.' :: natToChars z

/-- The textual form `"x.y"` of a two-component dotted string. -/
def renderVer2 (x y : Nat) : List Char :=
  natToChars x ++ '.' :: natToChars y

/-- The textual form `"x.y.z.w"` of a four-component dotted string. -/
def renderVer4 (x y z w : Nat) : List Char :=
  natToChars x ++ '.' :: natToChars y ++ '.' :: natToChars z ++ '.' :: natToChars w

/-! ### Substring search (Python `in`) and the commit classifier -/

/-- `needle` is a prefix of the second list. -/
def isPre : List Char → List Char → Bool
  | [], _ => true
  | _ :: _, [] => false
  | a :: as, b :: bs => a == b && isPre as bs

/-- Python `needle in hay` (substring containment). -/
def hasSub (needle : List Char) : List Char → Bool
  | [] => needle.isEmpty
  | c :: cs => isPre needle (c :: cs) || hasSub needle cs

/-- `determine_bump_type(commits)` from the script: scan the commit messages
for `!`, then `feat:`/`feat(`, then `fix:`/`fix(`/`perf:`/`perf(`. -/
def determine_bump_type (commits : List (List Char)) : Option String :=
  let has_breaking := commits.any (fun c => hasSub (("!").data) c)
  let has_feat := commits.any (fun c =>
    hasSub (("feat:").data) c || hasSub (("feat(").data) c)
  let has_fix_or_perf := commits.any (fun c =>
    ([("fix:"), ("fix("), ("perf:"), ("perf(")] : List String).any
      (fun k => hasSub k.data c))
  if has_breaking then some ("major")
  else if has_feat then some ("minor")
  else if has_fix_or_perf then some ("patch")
  else none

/-! ### The three version patterns -/

/-- The literal part `version="` of the `setup.py` patterns. -/
def litSetup : List Char := ("version=\"").data

/-- The literal `version=` (the quote-free part of `litSetup`). -/
def verEq : List Char := ("version=").data

/-- The literal part `__version__ = ` of the `__init__.py` pattern. -/
def litInit : List Char := ("__version__ = ").data

/-- The character class `["\']` of the `__init__.py` pattern. -/
def isQuoteChar (c : Char) : Bool := c == '"' || c == '\''

/-- The character class `[^"]` of the `setup.py` patterns. -/
def notQuote (c : Char) : Bool := !(c == '"')

/-- The character class `[^"\']` of the `__init__.py` pattern. -/
def notQuoteChar (c : Char) : Bool := !(isQuoteChar c)

/-- Strip an exact literal prefix. -/
def stripPre : List Char → List Char → Option (List Char)
  | [], l => some l
  | _ :: _, [] => none
  | p :: ps, c :: cs => if p = c then stripPre ps cs else none

/-- The part of the `version="([^"]+)"` match after the literal: a non-empty
greedy run `[^"]+` closed by `"`; on success, the captured body and the text
after the closing quote. -/
def chunkSetup (rest : List Char) : Option (List Char × List Char) :=
  match rest.dropWhile notQuote with
  | '"' :: tail =>
    if (rest.takeWhile notQuote).isEmpty then none
    else some (rest.takeWhile notQuote, tail)
  | _ => none

/-- Match `version="([^"]+)"` at the head of `l`. -/
def matchSetupAt (l : List Char) : Option (List Char × List Char) :=
  match stripPre litSetup l with
  | none => none
  | some rest => chunkSetup rest

/-- The part of the `version="[^"]+",` match after the literal: a non-empty
run `[^"]+` closed by `",` (the trailing comma of the write pattern). -/
def chunkSetupComma (rest : List Char) : Option (List Char × List Char) :=
  match rest.dropWhile notQuote with
  | '"' :: ',' :: tail =>
    if (rest.takeWhile notQuote).isEmpty then none
    else some (rest.takeWhile notQuote, tail)
  | _ => none

/-- Match `version="[^"]+",` (the `update_version_files` write pattern, with
its trailing comma) at the head of `l`. -/
def matchSetupCommaAt (l : List Char) : Option (List Char × List Char) :=
  match stripPre litSetup l with
  | none => none
  | some rest => chunkSetupComma rest

/-- The part of the `__version__ = ["\']([^"\']+)["\']` match after the
opening quote: a non-empty run `[^"\']+` closed by either quote character. -/
def chunkInit (rest1 : List Char) : Option (List Char × List Char) :=
  match rest1.dropWhile notQuoteChar with
  | _ :: tail =>
    if (rest1.takeWhile notQuoteChar).isEmpty then none
    else some (rest1.takeWhile notQuoteChar, tail)
  | [] => none

/-- Match `__version__ = ["\']([^"\']+)["\']` at the head of `l`. -/
def matchInitAt (l : List Char) : Option (List Char × List Char) :=
  match stripPre litInit l with
  | none => none
  | some rest =>
    match rest with
    | [] => none
    | q :: rest1 =>
      if isQuoteChar q then chunkInit rest1
      else none

/-- `re.search` with matcher `m`: left-to-right scan, first match's captured
group. -/
def reSearch (m : List Char → Option (List Char × List Char)) :
    List Char → Option (List Char)
  | [] => none
  | c :: cs =>
    match m (c :: cs) with
    | some (body, _) => some body
    | none => reSearch m cs

/-- Fuelled `re.sub` scan with matcher `m` and replacement text `r`: on a
match, emit `r` and resume after the match; otherwise copy one character.
The fuel is only a structural-termination device; `l.length` always
suffices because every match consumes at least one character. -/
def reSubF (m : List Char → Option (List Char × List Char)) (r : List Char) :
    Nat → List Char → List Char
  | _, [] => []
  | 0, l => l
  | f + 1, c :: cs =>
    match m (c :: cs) with
    | some (_, tail) => r ++ reSubF m r f tail
    | none => c :: reSubF m r f cs

/-- `re.sub` with matcher `m` and replacement `r`. -/
def reSub (m : List Char → Option (List Char × List Char)) (r l : List Char) :
    List Char :=
  reSubF m r l.length l

/-- `re.search(r'version="([^"]+)"', l)` (the `get_setup_version` read). -/
def searchSetup (l : List Char) : Option (List Char) := reSearch matchSetupAt l

/-- `re.search(r'__version__ = ["\']([^"\']+)["\']', l)` (the
`get_current_version` read). -/
def searchInit (l : List Char) : Option (List Char) := reSearch matchInitAt l

/-- `re.sub(r'version="[^"]+"', f'version="{w}"', l)` (the sync rewrite). -/
def subSetup (w l : List Char) : List Char :=
  reSub matchSetupAt (litSetup ++ w ++ ['"']) l

/-- `re.sub(r'version="[^"]+",', f'version="{w}",', l)` (the
`update_version_files` rewrite of `setup.py`). -/
def subSetupComma (w l : List Char) : List Char :=
  reSub matchSetupCommaAt (litSetup ++ w ++ ['"', ',']) l

/-- `re.sub(r'__version__ = ["\'][^"\']+["\']', f'__version__ = "{w}"', l)`:
the replacement always uses double quotes. -/
def subInit (w l : List Char) : List Char :=
  reSub matchInitAt (litInit ++ '"' :: w ++ ['"']) l

/-- "The matcher fails at every start position strictly inside `pre`", for
the scan over `pre ++ r`.  This is the invariant the left-to-right scans of
`re.search`/`re.sub` maintain on the text before the first match. -/
def failsAlong (m : List Char → Option (List Char × List Char)) :
    List Char → List Char → Prop
  | [], _ => True
  | c :: p, r => m (c :: (p ++ r)) = none ∧ failsAlong m p r

/-! ### The file system and the script's file operations -/

/-- The two files the script reads and writes. -/
structure FS where
  initContent : List Char
  setupContent : List Char
deriving DecidableEq, Repr

/-- `get_current_version()`: read the version from `basicmicro/__init__.py`,
`ValueError` if the pattern is absent. -/
def get_current_version (fs : FS) : Except PyErr (List Char) :=
  match searchInit fs.initContent with
  | some v => .ok v
  | none => .error (.valueError ("Could not find version in __init__.py"))

/-- `get_setup_version()`: read the version from `setup.py`, `ValueError` if
the pattern is absent. -/
def get_setup_version (fs : FS) : Except PyErr (List Char) :=
  match searchSetup fs.setupContent with
  | some v => .ok v
  | none => .error (.valueError ("Could not find version in setup.py"))

/-- `sync_versions()`: read both versions; a `ValueError` from the primary
read propagates (it is raised before the `try`), a `ValueError` from the
secondary read is caught (warning, `return False`); on mismatch rewrite
`setup.py` to the primary version and return `True`. -/
def sync_versions (fs : FS) : Except PyErr (FS × Bool) :=
  match get_current_version fs with
  | .error e => .error e
  | .ok initV =>
    match get_setup_version fs with
    | .error _ => .ok (fs, false)
    | .ok setupV =>
      if initV ≠ setupV then
        .ok ({ fs with setupContent := subSetup initV fs.setupContent }, true)
      else .ok (fs, false)

/-- `update_version_files(new_version)`: rewrite both files (note the
different `setup.py` pattern, which requires a trailing comma). -/
def update_version_files (newV : List Char) (fs : FS) : FS :=
  { initContent := subInit newV fs.initContent
    setupContent := subSetupComma newV fs.setupContent }

/-! ### Git as an oracle, commit retrieval, and the entry point -/

/-- Outcomes of the three read-only git invocations, supplied as inputs:
`git describe --tags --abbrev=0`, `git log {tag}..HEAD --oneline` (keyed by
the tag), and `git log --oneline`.  `.error ()` is a non-zero exit
(`CalledProcessError` under `check=True`). -/
structure Git where
  describeOut : Except Unit (List Char)
  logRangeOut : List Char → Except Unit (List Char)
  logFullOut : Except Unit (List Char)

/-- Python `str.strip()`. -/
def pyStrip (l : List Char) : List Char :=
  ((l.dropWhile Char.isWhitespace).reverse.dropWhile Char.isWhitespace).reverse

/-- Python `s.split('\n')`. -/
def splitNL : List Char → List (List Char)
  | [] => [[]]
  | c :: cs =>
    if c = '\n' then [] :: splitNL cs
    else
      match splitNL cs with
      | [] => [[c]]
      | p :: ps => (c :: p) :: ps

/-- `result.stdout.strip().split('\n') if result.stdout.strip() else []`. -/
def pySplitCommits (out : List Char) : List (List Char) :=
  if (pyStrip out).isEmpty then [] else splitNL (pyStrip out)

/-- The fallback in the `except CalledProcessError` handler: full
`git log --oneline`; its own failure is not caught and propagates. -/
def fullHistory (g : Git) : Except Unit (List (List Char)) :=
  match g.logFullOut with
  | .ok out => .ok (pySplitCommits out)
  | .error e => .error e

/-- `get_commits_since_last_tag()`: describe the last tag and list the
commits after it; any `CalledProcessError` from either command inside the
`try` falls into the same full-history handler. -/
def get_commits_since_last_tag (g : Git) : Except Unit (List (List Char)) :=
  match g.describeOut with
  | .error _ => fullHistory g
  | .ok dOut =>
    match g.logRangeOut (pyStrip dOut) with
    | .error _ => fullHistory g
    | .ok out => .ok (pySplitCommits out)

/-- Outcome of a terminating `main()` run: the final file system, the process
exit code, and the tag created by the bump path (if any). -/
structure MainResult where
  fs : FS
  exitCode : Nat
  createdTag : Option (List Char)
deriving DecidableEq, Repr

/-- The bump path of `main()`: read the current version, bump it, rewrite
both files, and tag `v{new_version}` (the git write commands are modelled as
succeeding). -/
def bumpAndTag (bt : String) (fs1 : FS) : Except PyErr MainResult :=
  match get_current_version fs1 with
  | .error e => .error e
  | .ok cv =>
    match bump_version cv bt with
    | .error e => .error e
    | .ok nv => .ok ⟨update_version_files nv fs1, 0, some ('v' :: nv)⟩

/-- The script's `main()` (the name `main` is reserved in Lean): always sync
first; then dispatch on the CLI argument (usage error exits with status 1),
or on the commit classifier in automatic mode. -/
def script_main (argv : List String) (commits : List (List Char)) (fs : FS) :
    Except PyErr MainResult :=
  match sync_versions fs with
  | .error e => .error e
  | .ok (fs1, _wasSynced) =>
    match argv with
    | bt :: _ =>
      if bt ∉ (["major", "minor", "patch", "sync"] : List String) then
        .ok ⟨fs1, 1, none⟩
      else if bt = ("sync") then .ok ⟨fs1, 0, none⟩
      else bumpAndTag bt fs1
    | [] =>
      match determine_bump_type commits with
      | none => .ok ⟨fs1, 0, none⟩
      | some bt => bumpAndTag bt fs1

/-! ## Theorems -/

/-! ### Decimal round-trips -/

theorem digitChar_toNat_sub (d : Nat) (h : d < 10) : (Nat.digitChar d).toNat - 48 = d := by
  interval_cases d <;> rfl

theorem digitChar_isDigit (d : Nat) (h : d < 10) : (Nat.digitChar d).isDigit = true := by
  interval_cases d <;> rfl

theorem foldl_digits (ds : List Nat) (a : Nat) (h : ∀ d ∈ ds, d < 10) :
    (ds.reverse.map Nat.digitChar).foldl (fun a c => a * 10 + (c.toNat - 48)) a
      = a * 10 ^ ds.length + Nat.ofDigits 10 ds := by
  induction ds generalizing a with
  | nil => simp
  | cons d rest ih =>
    have hd : d < 10 := h d (by simp)
    have hrest : ∀ x ∈ rest, x < 10 := fun x hx => h x (by simp [hx])
    rw [List.reverse_cons, List.map_append, List.foldl_append]
    rw [ih a hrest]
    simp only [List.map, List.foldl]
    rw [digitChar_toNat_sub d hd, Nat.ofDigits_cons]
    simp only [List.length_cons, pow_succ]
    ring

theorem digitsToNat_natToChars (n : Nat) : digitsToNat (natToChars n) = n := by
  by_cases h : n = 0
  · subst h; rfl
  · unfold natToChars digitsToNat
    rw [if_neg h]
    rw [foldl_digits (Nat.digits 10 n) 0 (fun d hd => Nat.digits_lt_base (by norm_num) hd)]
    simp [Nat.ofDigits_digits]

theorem natToChars_ne_nil (n : Nat) : natToChars n ≠ [] := by
  unfold natToChars
  by_cases h : n = 0
  · simp [h]
  · rw [if_neg h]
    simp only [ne_eq, List.map_eq_nil_iff, List.reverse_eq_nil_iff]
    exact Nat.digits_ne_nil_iff_ne_zero.mpr h

theorem natToChars_all_digit (n : Nat) : ∀ c ∈ natToChars n, c.isDigit = true := by
  intro c hc
  unfold natToChars at hc
  by_cases h : n = 0
  · rw [if_pos h] at hc
    simp at hc
    subst hc; rfl
  · rw [if_neg h] at hc
    simp only [List.mem_map, List.mem_reverse] at hc
    obtain ⟨d, hd, rfl⟩ := hc
    exact digitChar_isDigit d (Nat.digits_lt_base (by norm_num) hd)

theorem isDigit_ne_dot {c : Char} (h : c.isDigit = true) : c ≠ '.' := by
  intro hc; subst hc; exact absurd h (by decide)

theorem isDigit_ne_minus {c : Char} (h : c.isDigit = true) : c ≠ '-' := by
  intro hc; subst hc; exact absurd h (by decide)

theorem isDigit_ne_plus {c : Char} (h : c.isDigit = true) : c ≠ '+' := by
  intro hc; subst hc; exact absurd h (by decide)

/-! ### `split('.')` -/

theorem splitDot_ne_nil (l : List Char) : splitDot l ≠ [] := by
  cases l with
  | nil => simp [splitDot]
  | cons c cs =>
    unfold splitDot
    by_cases h : c = '.'
    · simp [h]
    · rw [if_neg h]
      cases splitDot cs <;> simp

theorem splitDot_no_dot (l : List Char) (h : ∀ c ∈ l, c ≠ '.') : splitDot l = [l] := by
  induction l with
  | nil => rfl
  | cons c cs ih =>
    unfold splitDot
    rw [if_neg (h c (by simp))]
    rw [ih (fun x hx => h x (by simp [hx]))]

theorem splitDot_append (l r : List Char) (h : ∀ c ∈ l, c ≠ '.') :
    splitDot (l ++ '.' :: r) = l :: splitDot r := by
  induction l with
  | nil => simp [splitDot]
  | cons c cs ih =>
    have hc : c ≠ '.' := h c (by simp)
    have h2 : splitDot (cs ++ '.' :: r) = cs :: splitDot r :=
      ih (fun x hx => h x (by simp [hx]))
    show splitDot (c :: (cs ++ '.' :: r)) = (c :: cs) :: splitDot r
    simp only [splitDot]
    rw [if_neg hc, h2]

theorem pyInt_natToChars (n : Nat) : pyInt (natToChars n) = .ok (Int.ofNat n) := by
  obtain ⟨c, cs, hcs⟩ : ∃ c cs, natToChars n = c :: cs := by
    cases h : natToChars n with
    | nil => exact absurd h (natToChars_ne_nil n)
    | cons c cs => exact ⟨c, cs, rfl⟩
  have hdig : c.isDigit = true := natToChars_all_digit n c (by rw [hcs]; simp)
  rw [hcs]
  simp only [pyInt]
  rw [if_neg (isDigit_ne_minus hdig), if_neg (isDigit_ne_plus hdig)]
  unfold parseDigits
  rw [if_pos ⟨by simp, by
    rw [← hcs, List.all_eq_true]
    intro x hx
    exact natToChars_all_digit n x hx⟩]
  rw [← hcs, digitsToNat_natToChars]

/-! ### Evaluation lemmas for `bump_version` on well-formed versions -/

theorem natToChars_no_dot (n : Nat) : ∀ c ∈ natToChars n, c ≠ '.' :=
  fun c hc => isDigit_ne_dot (natToChars_all_digit n c hc)

theorem intToChars_ofNat (n : Nat) : intToChars (Int.ofNat n) = natToChars n := by
  unfold intToChars
  rw [if_neg (by exact Int.not_lt.mpr (Int.ofNat_nonneg n))]
  simp

theorem splitDot_renderVer (x y z : Nat) :
    splitDot (renderVer x y z) = [natToChars x, natToChars y, natToChars z] := by
  unfold renderVer
  simp only [List.append_assoc, List.cons_append]
  rw [splitDot_append _ _ (natToChars_no_dot x),
      splitDot_append _ _ (natToChars_no_dot y),
      splitDot_no_dot _ (natToChars_no_dot z)]

theorem splitDot_renderVer2 (x y : Nat) :
    splitDot (renderVer2 x y) = [natToChars x, natToChars y] := by
  unfold renderVer2
  rw [splitDot_append _ _ (natToChars_no_dot x),
      splitDot_no_dot _ (natToChars_no_dot y)]

theorem splitDot_renderVer4 (x y z w : Nat) :
    splitDot (renderVer4 x y z w)
      = [natToChars x, natToChars y, natToChars z, natToChars w] := by
  unfold renderVer4
  simp only [List.append_assoc, List.cons_append]
  rw [splitDot_append _ _ (natToChars_no_dot x),
      splitDot_append _ _ (natToChars_no_dot y),
      splitDot_append _ _ (natToChars_no_dot z),
      splitDot_no_dot _ (natToChars_no_dot w)]

theorem mapPyInt_cons (s : List Char) (rest : List (List Char)) (i : Int)
    (hs : pyInt s = .ok i) :
    mapPyInt (s :: rest) =
      match mapPyInt rest with
      | .error e => .error e
      | .ok is => .ok (i :: is) := by
  simp only [mapPyInt]
  rw [hs]

theorem exc_bind_ok {α β : Type} (a : α) (f : α → Except PyErr β) :
    (Except.ok a >>= f) = f a := rfl

theorem exc_bind_err {α β : Type} (e : PyErr) (f : α → Except PyErr β) :
    ((Except.error e : Except PyErr α) >>= f) = Except.error e := rfl

theorem mapPyInt_render3 (x y z : Nat) :
    mapPyInt [natToChars x, natToChars y, natToChars z]
      = .ok [Int.ofNat x, Int.ofNat y, Int.ofNat z] := by
  rw [mapPyInt_cons _ _ _ (pyInt_natToChars x), mapPyInt_cons _ _ _ (pyInt_natToChars y),
      mapPyInt_cons _ _ _ (pyInt_natToChars z)]
  rfl

theorem mapPyInt_render2 (x y : Nat) :
    mapPyInt [natToChars x, natToChars y] = .ok [Int.ofNat x, Int.ofNat y] := by
  rw [mapPyInt_cons _ _ _ (pyInt_natToChars x), mapPyInt_cons _ _ _ (pyInt_natToChars y)]
  rfl

theorem mapPyInt_render1 (x : Nat) :
    mapPyInt [natToChars x] = .ok [Int.ofNat x] := by
  rw [mapPyInt_cons _ _ _ (pyInt_natToChars x)]
  rfl

theorem mapPyInt_render4 (x y z w : Nat) :
    mapPyInt [natToChars x, natToChars y, natToChars z, natToChars w]
      = .ok [Int.ofNat x, Int.ofNat y, Int.ofNat z, Int.ofNat w] := by
  rw [mapPyInt_cons _ _ _ (pyInt_natToChars x), mapPyInt_cons _ _ _ (pyInt_natToChars y),
      mapPyInt_cons _ _ _ (pyInt_natToChars z), mapPyInt_cons _ _ _ (pyInt_natToChars w)]
  rfl

theorem bumpParts_major (a b c : Int) (rest : List Int) :
    bumpParts ("major") (a :: b :: c :: rest) = .ok ((a + 1) :: 0 :: 0 :: rest) := rfl

theorem bumpParts_minor (a b c : Int) (rest : List Int) :
    bumpParts ("minor") (a :: b :: c :: rest) = .ok (a :: (b + 1) :: 0 :: rest) := rfl

theorem bumpParts_patch (a b c : Int) (rest : List Int) :
    bumpParts ("patch") (a :: b :: c :: rest) = .ok (a :: b :: (c + 1) :: rest) := rfl

theorem bumpParts_minor_one (a : Int) : bumpParts ("minor") [a] = .error .indexError := rfl

theorem bumpParts_patch_one (a : Int) : bumpParts ("patch") [a] = .error .indexError := rfl

theorem bumpParts_minor_two (a b : Int) : bumpParts ("minor") [a, b] = .error .indexError := rfl

theorem bumpParts_patch_two (a b : Int) : bumpParts ("patch") [a, b] = .error .indexError := rfl

theorem bumpParts_invalid (bt : String) (parts : List Int)
    (h : bt ∉ (["major", "minor", "patch"] : List String)) :
    bumpParts bt parts = .error (.valueError (("Invalid bump type: ") ++ bt)) := by
  have h1 : ¬ bt = ("major") := fun hh => h (by simp [hh])
  have h2 : ¬ bt = ("minor") := fun hh => h (by simp [hh])
  have h3 : ¬ bt = ("patch") := fun hh => h (by simp [hh])
  unfold bumpParts
  rw [if_neg h1, if_neg h2, if_neg h3]

theorem formatVer_cons (a b c : Int) (rest : List Int) :
    formatVer (a :: b :: c :: rest)
      = .ok (intToChars a ++ '.' :: intToChars b ++ '.' :: intToChars c) := rfl

theorem bump_version_eval (cur : List Char) (bt : String) (parts parts2 : List Int)
    (out : List Char) (h1 : mapPyInt (splitDot cur) = .ok parts)
    (h2 : bumpParts bt parts = .ok parts2) (h3 : formatVer parts2 = .ok out) :
    bump_version cur bt = .ok out := by
  unfold bump_version
  rw [h1, exc_bind_ok, h2, exc_bind_ok, h3]

theorem bump_version_eval_err (cur : List Char) (bt : String) (parts : List Int)
    (e : PyErr) (h1 : mapPyInt (splitDot cur) = .ok parts)
    (h2 : bumpParts bt parts = .error e) :
    bump_version cur bt = .error e := by
  unfold bump_version
  rw [h1, exc_bind_ok, h2, exc_bind_err]

theorem intToChars_ofNat_succ (n : Nat) : intToChars (Int.ofNat n + 1) = natToChars (n + 1) := by
  have h : Int.ofNat n + 1 = Int.ofNat (n + 1) := rfl
  rw [h, intToChars_ofNat]

theorem intToChars_zero : intToChars 0 = natToChars 0 := rfl

/-- C1: for every version `"X.Y.Z"` with numeric non-negative components and
every bump kind, `bump_version` follows the reset rule: major gives
`(X+1, 0, 0)`, minor gives `(X, Y+1, 0)`, patch gives `(X, Y, Z+1)`,
formatted as `"a.b.c"`. -/
theorem bump_version_reset_rule (x y z : Nat) :
    bump_version (renderVer x y z) ("major") = .ok (renderVer (x + 1) 0 0) ∧
    bump_version (renderVer x y z) ("minor") = .ok (renderVer x (y + 1) 0) ∧
    bump_version (renderVer x y z) ("patch") = .ok (renderVer x y (z + 1)) := by
  refine ⟨?_, ?_, ?_⟩
  · refine bump_version_eval _ _ _ _ _ (by rw [splitDot_renderVer, mapPyInt_render3])
      (bumpParts_major _ _ _ _) ?_
    rw [formatVer_cons]
    unfold renderVer
    rw [intToChars_ofNat_succ, intToChars_zero]
  · refine bump_version_eval _ _ _ _ _ (by rw [splitDot_renderVer, mapPyInt_render3])
      (bumpParts_minor _ _ _ _) ?_
    rw [formatVer_cons]
    unfold renderVer
    rw [intToChars_ofNat_succ, intToChars_zero, intToChars_ofNat]
  · refine bump_version_eval _ _ _ _ _ (by rw [splitDot_renderVer, mapPyInt_render3])
      (bumpParts_patch _ _ _ _) ?_
    rw [formatVer_cons]
    unfold renderVer
    rw [intToChars_ofNat_succ, intToChars_ofNat, intToChars_ofNat]

/-- C8: for a bump kind outside `{"major","minor","patch"}` (and a well-formed
current version, so that the preceding `int` parse succeeds), `bump_version`
raises the `Invalid bump type` `ValueError` and produces no result.  For the
three valid kinds it is a pure deterministic function of its two arguments
(purity and determinism are definitional in this embedding; the successful
values are the subject of `bump_version_reset_rule`). -/
theorem bump_version_invalid_kind (x y z : Nat) (bt : String)
    (h : bt ∉ (["major", "minor", "patch"] : List String)) :
    bump_version (renderVer x y z) bt
      = .error (.valueError (("Invalid bump type: ") ++ bt)) :=
  bump_version_eval_err _ _ _ _ (by rw [splitDot_renderVer, mapPyInt_render3])
    (bumpParts_invalid _ _ h)

theorem bump_version_invalid_kind_witness :
    bump_version (renderVer 1 2 3) ("bogus")
      = .error (.valueError (("Invalid bump type: ") ++ "bogus")) :=
  bump_version_invalid_kind 1 2 3 ("bogus") (by decide)

/-- C10: `bump_version` does not validate the component count: on one or two
numeric components, `minor` and `patch` raise `IndexError` (not the invalid
bump kind `ValueError`); on four components it succeeds and silently keeps
only the first three components, discarding the rest. -/
theorem bump_version_no_arity_validation (x y z w : Nat) :
    bump_version (natToChars x) ("minor") = .error .indexError ∧
    bump_version (natToChars x) ("patch") = .error .indexError ∧
    bump_version (renderVer2 x y) ("minor") = .error .indexError ∧
    bump_version (renderVer2 x y) ("patch") = .error .indexError ∧
    bump_version (renderVer4 x y z w) ("major") = .ok (renderVer (x + 1) 0 0) ∧
    bump_version (renderVer4 x y z w) ("minor") = .ok (renderVer x (y + 1) 0) ∧
    bump_version (renderVer4 x y z w) ("patch") = .ok (renderVer x y (z + 1)) := by
  refine ⟨?_, ?_, ?_, ?_, ?_, ?_, ?_⟩
  · exact bump_version_eval_err _ _ [Int.ofNat x] _
      (by rw [splitDot_no_dot _ (natToChars_no_dot x), mapPyInt_render1])
      (bumpParts_minor_one _)
  · exact bump_version_eval_err _ _ [Int.ofNat x] _
      (by rw [splitDot_no_dot _ (natToChars_no_dot x), mapPyInt_render1])
      (bumpParts_patch_one _)
  · exact bump_version_eval_err _ _ [Int.ofNat x, Int.ofNat y] _
      (by rw [splitDot_renderVer2, mapPyInt_render2])
      (bumpParts_minor_two _ _)
  · exact bump_version_eval_err _ _ [Int.ofNat x, Int.ofNat y] _
      (by rw [splitDot_renderVer2, mapPyInt_render2])
      (bumpParts_patch_two _ _)
  · refine bump_version_eval _ _ _ _ _ (by rw [splitDot_renderVer4, mapPyInt_render4])
      (bumpParts_major _ _ _ _) ?_
    rw [formatVer_cons]
    unfold renderVer
    rw [intToChars_ofNat_succ, intToChars_zero]
  · refine bump_version_eval _ _ _ _ _ (by rw [splitDot_renderVer4, mapPyInt_render4])
      (bumpParts_minor _ _ _ _) ?_
    rw [formatVer_cons]
    unfold renderVer
    rw [intToChars_ofNat_succ, intToChars_zero, intToChars_ofNat]
  · refine bump_version_eval _ _ _ _ _ (by rw [splitDot_renderVer4, mapPyInt_render4])
      (bumpParts_patch _ _ _ _) ?_
    rw [formatVer_cons]
    unfold renderVer
    rw [intToChars_ofNat_succ, intToChars_ofNat, intToChars_ofNat]

/-! ### The commit classifier (C2) -/

theorem perm_any_eq {α : Type} {l₁ l₂ : List α} (h : l₁.Perm l₂) (p : α → Bool) :
    l₁.any p = l₂.any p := by
  cases h2 : l₂.any p with
  | true =>
    rw [List.any_eq_true] at h2 ⊢
    obtain ⟨x, hx, hpx⟩ := h2
    exact ⟨x, h.mem_iff.mpr hx, hpx⟩
  | false =>
    rw [List.any_eq_false] at h2 ⊢
    intro x hx
    exact h2 x (h.mem_iff.mp hx)

/-- C2: `determine_bump_type` returns `major` if any message contains `!`;
otherwise `minor` if any contains `feat:`/`feat(`; otherwise `patch` if any
contains `fix:`/`fix(`/`perf:`/`perf(`; otherwise `None`; the empty list
gives `None`, and the result is invariant under permutation of the list. -/
theorem determine_bump_type_spec (commits : List (List Char)) :
    ((∃ c, c ∈ commits ∧ hasSub (("!").data) c = true) →
      determine_bump_type commits = some ("major")) ∧
    ((∀ c, c ∈ commits → hasSub (("!").data) c = false) →
      (∃ c, c ∈ commits ∧ (hasSub (("feat:").data) c || hasSub (("feat(").data) c) = true) →
      determine_bump_type commits = some ("minor")) ∧
    ((∀ c, c ∈ commits → hasSub (("!").data) c = false) →
      (∀ c, c ∈ commits → (hasSub (("feat:").data) c || hasSub (("feat(").data) c) = false) →
      (∃ c, c ∈ commits ∧
        (([("fix:"), ("fix("), ("perf:"), ("perf(")] : List String).any
          (fun k => hasSub k.data c)) = true) →
      determine_bump_type commits = some ("patch")) ∧
    ((∀ c, c ∈ commits → hasSub (("!").data) c = false) →
      (∀ c, c ∈ commits → (hasSub (("feat:").data) c || hasSub (("feat(").data) c) = false) →
      (∀ c, c ∈ commits →
        (([("fix:"), ("fix("), ("perf:"), ("perf(")] : List String).any
          (fun k => hasSub k.data c)) = false) →
      determine_bump_type commits = none) ∧
    (determine_bump_type ([] : List (List Char)) = none) ∧
    (∀ commits2 : List (List Char), commits.Perm commits2 →
      determine_bump_type commits = determine_bump_type commits2) := by
  refine ⟨?_, ?_, ?_, ?_, rfl, ?_⟩
  · intro h
    have hb : commits.any (fun c => hasSub (("!").data) c) = true :=
      List.any_eq_true.mpr h
    simp [determine_bump_type, hb]
  · intro h1 h2
    have hb : commits.any (fun c => hasSub (("!").data) c) = false :=
      List.any_eq_false.mpr (fun x hx => by simp [h1 x hx])
    have hf : commits.any
        (fun c => hasSub (("feat:").data) c || hasSub (("feat(").data) c) = true :=
      List.any_eq_true.mpr h2
    simp [determine_bump_type, hb, hf]
  · intro h1 h2 h3
    have hb : commits.any (fun c => hasSub (("!").data) c) = false :=
      List.any_eq_false.mpr (fun x hx => by simp [h1 x hx])
    have hf : commits.any
        (fun c => hasSub (("feat:").data) c || hasSub (("feat(").data) c) = false :=
      List.any_eq_false.mpr (fun x hx => by simp [h2 x hx])
    have hx : commits.any (fun c =>
        ([("fix:"), ("fix("), ("perf:"), ("perf(")] : List String).any
          (fun k => hasSub k.data c)) = true :=
      List.any_eq_true.mpr h3
    simp only [determine_bump_type]
    rw [hb, hf, hx]
    simp
  · intro h1 h2 h3
    have hb : commits.any (fun c => hasSub (("!").data) c) = false :=
      List.any_eq_false.mpr (fun x hx => by simp [h1 x hx])
    have hf : commits.any
        (fun c => hasSub (("feat:").data) c || hasSub (("feat(").data) c) = false :=
      List.any_eq_false.mpr (fun x hx => by simp [h2 x hx])
    have hx : commits.any (fun c =>
        ([("fix:"), ("fix("), ("perf:"), ("perf(")] : List String).any
          (fun k => hasSub k.data c)) = false :=
      List.any_eq_false.mpr (fun x hx => by simp [h3 x hx])
    simp only [determine_bump_type]
    rw [hb, hf, hx]
    simp
  · intro commits2 hp
    simp only [determine_bump_type]
    rw [perm_any_eq hp, perm_any_eq hp, perm_any_eq hp]

theorem determine_bump_type_spec_witness :
    determine_bump_type [("feat: add x").data, ("fix!: boom").data] = some ("major") ∧
    determine_bump_type [("fix(core): patch it").data] = some ("patch") ∧
    determine_bump_type ([] : List (List Char)) = none ∧
    determine_bump_type [("feat: a").data, ("fix: b").data]
      = determine_bump_type [("fix: b").data, ("feat: a").data] := by
  refine ⟨?_, ?_, ?_, ?_⟩
  · exact (determine_bump_type_spec _).1 (by decide)
  · exact (determine_bump_type_spec _).2.2.1 (by decide) (by decide) (by decide)
  · exact (determine_bump_type_spec ([("x").data])).2.2.2.2.1
  · exact (determine_bump_type_spec _).2.2.2.2.2 _ (List.Perm.swap _ _ _)

/-! ### Matcher inversions -/

theorem stripPre_eq_some (p l r : List Char) : stripPre p l = some r ↔ l = p ++ r := by
  induction p generalizing l with
  | nil => simp [stripPre]
  | cons a ps ih =>
    cases l with
    | nil => simp [stripPre]
    | cons c cs =>
      simp only [stripPre]
      by_cases hac : a = c
      · subst hac
        rw [if_pos rfl, ih]
        simp
      · rw [if_neg hac]
        constructor
        · intro h; exact absurd h (by simp)
        · intro h
          injection h with h1 h2
          exact absurd h1.symm hac

theorem takeWhile_app (p : Char → Bool) (a b : List Char) (h : ∀ x ∈ a, p x = true) :
    (a ++ b).takeWhile p = a ++ b.takeWhile p := by
  induction a with
  | nil => rfl
  | cons c cs ih =>
    have hc : p c = true := h c (by simp)
    simp only [List.cons_append]
    rw [List.takeWhile_cons_of_pos hc, ih (fun x hx => h x (by simp [hx]))]

theorem dropWhile_app (p : Char → Bool) (a b : List Char) (h : ∀ x ∈ a, p x = true) :
    (a ++ b).dropWhile p = b.dropWhile p := by
  induction a with
  | nil => rfl
  | cons c cs ih =>
    have hc : p c = true := h c (by simp)
    simp only [List.cons_append]
    rw [List.dropWhile_cons_of_pos hc, ih (fun x hx => h x (by simp [hx]))]

theorem span_stop (p : Char → Bool) (a : List Char) (c : Char) (t : List Char)
    (ha : ∀ x ∈ a, p x = true) (hc : p c = false) :
    (a ++ c :: t).takeWhile p = a ∧ (a ++ c :: t).dropWhile p = c :: t := by
  constructor
  · rw [takeWhile_app p a _ ha, List.takeWhile_cons_of_neg (by simp [hc])]
    simp
  · rw [dropWhile_app p a _ ha, List.dropWhile_cons_of_neg (by simp [hc])]

theorem takeWhile_mem (p : Char → Bool) (l : List Char) :
    ∀ x ∈ l.takeWhile p, p x = true := by
  induction l with
  | nil => intro x hx; simp [List.takeWhile] at hx
  | cons c cs ih =>
    intro x hx
    by_cases hc : p c = true
    · rw [List.takeWhile_cons_of_pos hc] at hx
      rcases List.mem_cons.mp hx with rfl | hx2
      · exact hc
      · exact ih x hx2
    · rw [List.takeWhile_cons_of_neg (by simpa using hc)] at hx
      simp at hx

theorem dropWhile_head_false (p : Char → Bool) (l : List Char) (c : Char) (t : List Char)
    (h : l.dropWhile p = c :: t) : p c = false := by
  induction l with
  | nil => simp [List.dropWhile] at h
  | cons a l' ih =>
    by_cases ha : p a = true
    · rw [List.dropWhile_cons_of_pos ha] at h
      exact ih h
    · rw [List.dropWhile_cons_of_neg (by simpa using ha)] at h
      injection h with h1 _
      subst h1
      simpa using ha

theorem matchSetupAt_some_iff (l b t : List Char) :
    matchSetupAt l = some (b, t) ↔
      l = litSetup ++ b ++ '"' :: t ∧ b ≠ [] ∧ ∀ x ∈ b, notQuote x = true := by
  constructor
  · intro h
    unfold matchSetupAt at h
    split at h
    · exact absurd h (by simp)
    · rename_i rest heq
      have hls : l = litSetup ++ rest := (stripPre_eq_some _ _ _).mp heq
      unfold chunkSetup at h
      split at h
      · rename_i tail heq2
        split at h
        · exact absurd h (by simp)
        · rename_i hne2
          injection h with h1
          injection h1 with hb ht
          subst hb
          subst ht
          refine ⟨?_, ?_, takeWhile_mem notQuote rest⟩
          · rw [hls, List.append_assoc]
            congr 1
            rw [← heq2]
            exact (List.takeWhile_append_dropWhile notQuote rest).symm
          · intro hnil
            exact hne2 (by rw [hnil]; rfl)
      · exact absurd h (by simp)
  · rintro ⟨rfl, hne, hall⟩
    have hsp : stripPre litSetup (litSetup ++ b ++ '"' :: t) = some (b ++ '"' :: t) :=
      (stripPre_eq_some _ _ _).mpr (by rw [List.append_assoc])
    have hch : chunkSetup (b ++ '"' :: t) = some (b, t) := by
      obtain ⟨htw, hdw⟩ := span_stop notQuote b '"' t hall (by decide)
      have hbe : b.isEmpty = false := by
        cases b with
        | nil => exact absurd rfl hne
        | cons _ _ => rfl
      unfold chunkSetup
      rw [hdw]
      simp [htw, hbe]
    unfold matchSetupAt
    rw [hsp]
    exact hch

theorem matchSetupCommaAt_some_iff (l b t : List Char) :
    matchSetupCommaAt l = some (b, t) ↔
      l = litSetup ++ b ++ '"' :: ',' :: t ∧ b ≠ [] ∧ ∀ x ∈ b, notQuote x = true := by
  constructor
  · intro h
    unfold matchSetupCommaAt at h
    split at h
    · exact absurd h (by simp)
    · rename_i rest heq
      have hls : l = litSetup ++ rest := (stripPre_eq_some _ _ _).mp heq
      unfold chunkSetupComma at h
      split at h
      · rename_i tail heq2
        split at h
        · exact absurd h (by simp)
        · rename_i hne2
          injection h with h1
          injection h1 with hb ht
          subst hb
          subst ht
          refine ⟨?_, ?_, takeWhile_mem notQuote rest⟩
          · rw [hls, List.append_assoc]
            congr 1
            rw [← heq2]
            exact (List.takeWhile_append_dropWhile notQuote rest).symm
          · intro hnil
            exact hne2 (by rw [hnil]; rfl)
      · exact absurd h (by simp)
  · rintro ⟨rfl, hne, hall⟩
    have hsp : stripPre litSetup (litSetup ++ b ++ '"' :: ',' :: t)
        = some (b ++ '"' :: ',' :: t) :=
      (stripPre_eq_some _ _ _).mpr (by rw [List.append_assoc])
    have hch : chunkSetupComma (b ++ '"' :: ',' :: t) = some (b, t) := by
      obtain ⟨htw, hdw⟩ := span_stop notQuote b '"' (',' :: t) hall (by decide)
      have hbe : b.isEmpty = false := by
        cases b with
        | nil => exact absurd rfl hne
        | cons _ _ => rfl
      unfold chunkSetupComma
      rw [hdw]
      simp [htw, hbe]
    unfold matchSetupCommaAt
    rw [hsp]
    exact hch

theorem matchInitAt_some_iff (l b t : List Char) :
    matchInitAt l = some (b, t) ↔
      ∃ q q2, isQuoteChar q = true ∧ isQuoteChar q2 = true ∧
        l = litInit ++ q :: (b ++ q2 :: t) ∧ b ≠ [] ∧ ∀ x ∈ b, notQuoteChar x = true := by
  constructor
  · intro h
    unfold matchInitAt at h
    split at h
    · exact absurd h (by simp)
    · rename_i rest heq
      have hls : l = litInit ++ rest := (stripPre_eq_some _ _ _).mp heq
      split at h
      · exact absurd h (by simp)
      · rename_i q rest1
        split at h
        · rename_i hq
          unfold chunkInit at h
          split at h
          · rename_i d tail heq2
            split at h
            · exact absurd h (by simp)
            · rename_i hne2
              injection h with h1
              injection h1 with hb ht
              subst hb
              subst ht
              have hd : isQuoteChar d = true := by
                have := dropWhile_head_false notQuoteChar rest1 d _ heq2
                simpa [notQuoteChar] using this
              refine ⟨q, d, hq, hd, ?_, ?_, takeWhile_mem notQuoteChar rest1⟩
              · rw [hls]
                congr 1
                congr 1
                rw [← heq2]
                exact (List.takeWhile_append_dropWhile notQuoteChar rest1).symm
              · intro hnil
                exact hne2 (by rw [hnil]; rfl)
          · exact absurd h (by simp)
        · exact absurd h (by simp)
  · rintro ⟨q, q2, hq, hq2, rfl, hne, hall⟩
    have hsp : stripPre litInit (litInit ++ q :: (b ++ q2 :: t))
        = some (q :: (b ++ q2 :: t)) :=
      (stripPre_eq_some _ _ _).mpr rfl
    have hch : chunkInit (b ++ q2 :: t) = some (b, t) := by
      obtain ⟨htw, hdw⟩ := span_stop notQuoteChar b q2 t hall (by simp [notQuoteChar, hq2])
      have hbe : b.isEmpty = false := by
        cases b with
        | nil => exact absurd rfl hne
        | cons _ _ => rfl
      unfold chunkInit
      rw [hdw]
      simp [htw, hbe]
    unfold matchInitAt
    rw [hsp]
    simp [hq, hch]

theorem matchSetupAt_dec : ∀ (l b t : List Char),
    matchSetupAt l = some (b, t) → t.length < l.length := by
  intro l b t h
  obtain ⟨rfl, -, -⟩ := (matchSetupAt_some_iff _ _ _).mp h
  rw [List.length_append, List.length_append, List.length_cons]
  omega

theorem matchSetupCommaAt_dec : ∀ (l b t : List Char),
    matchSetupCommaAt l = some (b, t) → t.length < l.length := by
  intro l b t h
  obtain ⟨rfl, -, -⟩ := (matchSetupCommaAt_some_iff _ _ _).mp h
  rw [List.length_append, List.length_append, List.length_cons, List.length_cons]
  omega

theorem matchInitAt_dec : ∀ (l b t : List Char),
    matchInitAt l = some (b, t) → t.length < l.length := by
  intro l b t h
  obtain ⟨q, q2, -, -, rfl, -, -⟩ := (matchInitAt_some_iff _ _ _).mp h
  rw [List.length_append, List.length_cons, List.length_append, List.length_cons]
  omega

theorem matchSetupAt_none_of_head (c : Char) (cs : List Char) (hc : c ≠ 'v') :
    matchSetupAt (c :: cs) = none := by
  cases hm : matchSetupAt (c :: cs) with
  | none => rfl
  | some bt =>
    obtain ⟨b, t⟩ := bt
    obtain ⟨heq, -, -⟩ := (matchSetupAt_some_iff _ _ _).mp hm
    rw [show litSetup = 'v' :: ("ersion=\"").data from rfl,
        List.cons_append, List.cons_append] at heq
    injection heq with h1 _
    exact absurd h1 hc

theorem matchSetupCommaAt_none_of_head (c : Char) (cs : List Char) (hc : c ≠ 'v') :
    matchSetupCommaAt (c :: cs) = none := by
  cases hm : matchSetupCommaAt (c :: cs) with
  | none => rfl
  | some bt =>
    obtain ⟨b, t⟩ := bt
    obtain ⟨heq, -, -⟩ := (matchSetupCommaAt_some_iff _ _ _).mp hm
    rw [show litSetup = 'v' :: ("ersion=\"").data from rfl,
        List.cons_append, List.cons_append] at heq
    injection heq with h1 _
    exact absurd h1 hc

theorem matchInitAt_none_of_head (c : Char) (cs : List Char) (hc : c ≠ '_') :
    matchInitAt (c :: cs) = none := by
  cases hm : matchInitAt (c :: cs) with
  | none => rfl
  | some bt =>
    obtain ⟨b, t⟩ := bt
    obtain ⟨q, q2, -, -, heq, -, -⟩ := (matchInitAt_some_iff _ _ _).mp hm
    rw [show litInit = '_' :: ("_version__ = ").data from rfl, List.cons_append] at heq
    injection heq with h1 _
    exact absurd h1 hc

/-! ### Generic facts about the `re.search`/`re.sub` scans -/

theorem reSubF_fuel (m : List Char → Option (List Char × List Char)) (r : List Char)
    (hdec : ∀ l b t, m l = some (b, t) → t.length < l.length)
    (f1 f2 : Nat) (l : List Char) (h1 : l.length ≤ f1) (h2 : l.length ≤ f2) :
    reSubF m r f1 l = reSubF m r f2 l := by
  induction f1 generalizing f2 l with
  | zero =>
    cases l with
    | nil => cases f2 <;> rfl
    | cons c cs => simp at h1
  | succ f ih =>
    cases l with
    | nil => cases f2 <;> rfl
    | cons c cs =>
      cases f2 with
      | zero => simp at h2
      | succ f2' =>
        simp only [reSubF]
        cases hm : m (c :: cs) with
        | none =>
          have ha : cs.length ≤ f := by simp at h1; omega
          have hb : cs.length ≤ f2' := by simp at h2; omega
          show c :: reSubF m r f cs = c :: reSubF m r f2' cs
          rw [ih f2' cs ha hb]
        | some bt =>
          obtain ⟨b, t⟩ := bt
          have hlt : t.length < cs.length + 1 := by
            have := hdec _ _ _ hm
            simpa using this
          have ha : t.length ≤ f := by simp at h1; omega
          have hb : t.length ≤ f2' := by simp at h2; omega
          show r ++ reSubF m r f t = r ++ reSubF m r f2' t
          rw [ih f2' t ha hb]

theorem reSub_match (m : List Char → Option (List Char × List Char)) (r : List Char)
    (hdec : ∀ l b t, m l = some (b, t) → t.length < l.length)
    (c : Char) (cs b t : List Char) (hm : m (c :: cs) = some (b, t)) :
    reSub m r (c :: cs) = r ++ reSub m r t := by
  unfold reSub
  have hlt : t.length < cs.length + 1 := by
    have := hdec _ _ _ hm
    simpa using this
  show reSubF m r (cs.length + 1) (c :: cs) = r ++ reSubF m r t.length t
  simp only [reSubF]
  rw [hm]
  show r ++ reSubF m r cs.length t = r ++ reSubF m r t.length t
  rw [reSubF_fuel m r hdec cs.length t.length t (by omega) (Nat.le_refl _)]

theorem reSub_skip (m : List Char → Option (List Char × List Char)) (r : List Char)
    (c : Char) (cs : List Char) (hm : m (c :: cs) = none) :
    reSub m r (c :: cs) = c :: reSub m r cs := by
  unfold reSub
  show reSubF m r (cs.length + 1) (c :: cs) = c :: reSubF m r cs.length cs
  simp only [reSubF]
  rw [hm]

theorem reSub_fails_append (m : List Char → Option (List Char × List Char)) (r : List Char)
    (pre rest : List Char) (hf : failsAlong m pre rest) :
    reSub m r (pre ++ rest) = pre ++ reSub m r rest := by
  induction pre with
  | nil => simp
  | cons c p ih =>
    obtain ⟨h1, h2⟩ := hf
    rw [List.cons_append, reSub_skip m r c (p ++ rest) h1, ih h2]
    rfl

theorem reSearch_fails_append (m : List Char → Option (List Char × List Char))
    (pre rest : List Char) (hf : failsAlong m pre rest) :
    reSearch m (pre ++ rest) = reSearch m rest := by
  induction pre with
  | nil => rfl
  | cons c p ih =>
    obtain ⟨h1, h2⟩ := hf
    show reSearch m (c :: (p ++ rest)) = _
    simp only [reSearch]
    rw [h1]
    exact ih h2

theorem reSearch_head (m : List Char → Option (List Char × List Char))
    (l b t : List Char) (h : m l = some (b, t)) (hl : l ≠ []) :
    reSearch m l = some b := by
  cases l with
  | nil => exact absurd rfl hl
  | cons c cs =>
    simp only [reSearch]
    rw [h]

theorem reSearch_characterize (m : List Char → Option (List Char × List Char))
    (l b : List Char) (h : reSearch m l = some b) :
    ∃ pre rest t, l = pre ++ rest ∧ failsAlong m pre rest ∧ m rest = some (b, t) := by
  induction l with
  | nil => exact absurd h (by simp [reSearch])
  | cons c cs ih =>
    cases hm : m (c :: cs) with
    | some bt =>
      obtain ⟨b', t⟩ := bt
      have hb : b' = b := by
        simp only [reSearch] at h
        rw [hm] at h
        have h2 : some b' = some b := h
        injection h2
      subst hb
      exact ⟨[], c :: cs, t, by simp, trivial, hm⟩
    | none =>
      have h' : reSearch m cs = some b := by
        simp only [reSearch] at h
        rw [hm] at h
        exact h
      obtain ⟨pre, rest, t, heq, hf, hm2⟩ := ih h'
      refine ⟨c :: pre, rest, t, by rw [List.cons_append, ← heq], ⟨?_, hf⟩, hm2⟩
      rw [← heq]
      exact hm

theorem reSub_match_l (m : List Char → Option (List Char × List Char)) (r : List Char)
    (hdec : ∀ l b t, m l = some (b, t) → t.length < l.length)
    (l b t : List Char) (hm : m l = some (b, t)) (hl : l ≠ []) :
    reSub m r l = r ++ reSub m r t := by
  cases l with
  | nil => exact absurd rfl hl
  | cons c cs => exact reSub_match m r hdec c cs b t hm

theorem failsAlong_of_head (m : List Char → Option (List Char × List Char))
    (hchar : Char) (hm : ∀ c cs, c ≠ hchar → m (c :: cs) = none)
    (pre rest : List Char) (h : hchar ∉ pre) : failsAlong m pre rest := by
  induction pre with
  | nil => trivial
  | cons c p ih =>
    exact ⟨hm c (p ++ rest) (fun hh => h (by rw [hh]; simp)),
           ih (fun hh => h (by simp [hh]))⟩

theorem reSub_id_of_head (m : List Char → Option (List Char × List Char)) (r : List Char)
    (hchar : Char) (hm : ∀ c cs, c ≠ hchar → m (c :: cs) = none)
    (l : List Char) (h : hchar ∉ l) : reSub m r l = l := by
  induction l with
  | nil => rfl
  | cons c cs ih =>
    rw [reSub_skip m r c cs (hm c cs (fun hh => h (by rw [hh]; simp))),
        ih (fun hh => h (by simp [hh]))]

/-- C7: pattern-absence errors are asymmetric in `sync_versions`: a missing
secondary (`setup.py`) pattern is caught (no raise, no write, result
`False`), a missing primary (`__init__.py`) pattern propagates as the
`ValueError` raised by `get_current_version`. -/
theorem sync_versions_error_asymmetry (fs : FS) :
    (searchInit fs.initContent = none →
      sync_versions fs = .error (.valueError ("Could not find version in __init__.py"))) ∧
    (∀ v, searchInit fs.initContent = some v → searchSetup fs.setupContent = none →
      sync_versions fs = .ok (fs, false)) := by
  constructor
  · intro h
    unfold sync_versions get_current_version
    rw [h]
  · intro v h1 h2
    unfold sync_versions get_current_version get_setup_version
    rw [h1, h2]

theorem sync_versions_error_asymmetry_witness :
    sync_versions ⟨("no version assignment").data, ("version=\"1.0.0\"").data⟩
      = .error (.valueError ("Could not find version in __init__.py")) ∧
    sync_versions ⟨("__version__ = \"1.0.0\"").data, ("no pattern at all").data⟩
      = .ok (⟨("__version__ = \"1.0.0\"").data, ("no pattern at all").data⟩, false) := by
  constructor
  · exact (sync_versions_error_asymmetry _).1 (by decide)
  · exact (sync_versions_error_asymmetry _).2 (("1.0.0").data) (by decide) (by decide)

/-! ### C3: the trailing-comma mismatch between the setup.py read and write -/

theorem matchSetupAt_build (b t : List Char) (hne : b ≠ [])
    (hall : ∀ x ∈ b, notQuote x = true) :
    matchSetupAt (litSetup ++ b ++ '"' :: t) = some (b, t) :=
  (matchSetupAt_some_iff _ _ _).mpr ⟨rfl, hne, hall⟩

theorem matchSetupCommaAt_build (b t : List Char) (hne : b ≠ [])
    (hall : ∀ x ∈ b, notQuote x = true) :
    matchSetupCommaAt (litSetup ++ b ++ '"' :: ',' :: t) = some (b, t) :=
  (matchSetupCommaAt_some_iff _ _ _).mpr ⟨rfl, hne, hall⟩

/-- C3 (amended): when the `setup.py` version assignment carries the trailing
comma that the write pattern of `update_version_files` requires (and the text
before it contains no `v`, hence no earlier match), rewriting with a new
version `w` and re-reading with `get_setup_version` yields exactly `w`. -/
theorem update_version_files_reread (initC pre v post w : List Char)
    (hpre : 'v' ∉ pre) (hv : v ≠ []) (hvq : ∀ x ∈ v, notQuote x = true)
    (hw : w ≠ []) (hwq : ∀ x ∈ w, notQuote x = true) :
    get_setup_version
      (update_version_files w ⟨initC, pre ++ litSetup ++ v ++ '"' :: ',' :: post⟩)
      = .ok w := by
  have hfail : failsAlong matchSetupCommaAt pre (litSetup ++ v ++ '"' :: ',' :: post) :=
    failsAlong_of_head _ 'v' matchSetupCommaAt_none_of_head pre _ hpre
  have hm : matchSetupCommaAt (litSetup ++ v ++ '"' :: ',' :: post) = some (v, post) :=
    matchSetupCommaAt_build v post hv hvq
  have hsub : subSetupComma w (pre ++ litSetup ++ v ++ '"' :: ',' :: post)
      = pre ++ (litSetup ++ w ++ ['"', ','])
          ++ reSub matchSetupCommaAt (litSetup ++ w ++ ['"', ',']) post := by
    unfold subSetupComma
    rw [show pre ++ litSetup ++ v ++ '"' :: ',' :: post
          = pre ++ (litSetup ++ v ++ '"' :: ',' :: post) from by
        simp [List.append_assoc]]
    rw [reSub_fails_append _ _ _ _ hfail]
    rw [reSub_match_l _ _ matchSetupCommaAt_dec _ _ _ hm (by simp)]
    simp [List.append_assoc]
  unfold update_version_files get_setup_version
  simp only
  rw [hsub]
  unfold searchSetup
  have hfail2 : failsAlong matchSetupAt pre
      ((litSetup ++ w ++ ['"', ','])
        ++ reSub matchSetupCommaAt (litSetup ++ w ++ ['"', ',']) post) :=
    failsAlong_of_head _ 'v' matchSetupAt_none_of_head pre _ hpre
  rw [show pre ++ (litSetup ++ w ++ ['"', ','])
        ++ reSub matchSetupCommaAt (litSetup ++ w ++ ['"', ',']) post
      = pre ++ ((litSetup ++ w ++ ['"', ','])
        ++ reSub matchSetupCommaAt (litSetup ++ w ++ ['"', ',']) post) from by
    simp [List.append_assoc]]
  rw [reSearch_fails_append _ _ _ hfail2]
  have hm2 : matchSetupAt ((litSetup ++ w ++ ['"', ','])
        ++ reSub matchSetupCommaAt (litSetup ++ w ++ ['"', ',']) post)
      = some (w, ',' :: reSub matchSetupCommaAt (litSetup ++ w ++ ['"', ',']) post) := by
    rw [show (litSetup ++ w ++ ['"', ','])
          ++ reSub matchSetupCommaAt (litSetup ++ w ++ ['"', ',']) post
        = litSetup ++ w
          ++ '"' :: ',' :: reSub matchSetupCommaAt (litSetup ++ w ++ ['"', ',']) post from by
      simp [List.append_assoc]]
    exact matchSetupAt_build w _ hw hwq
  rw [reSearch_head matchSetupAt _ _ _ hm2 (by simp)]

theorem update_version_files_reread_witness :
    get_setup_version
      (update_version_files (("2.0.0").data)
        ⟨("__version__ = \"1.0.0\"").data,
         ("setup(\n    name=\"pkg\",\n    " ++ "version=\"1.0.0\",\n)\n").data⟩)
      = .ok (("2.0.0").data) := by
  have h := update_version_files_reread (("__version__ = \"1.0.0\"").data)
    (("setup(\n    name=\"pkg\",\n    ").data) (("1.0.0").data) (("\n)\n").data)
    (("2.0.0").data) (by decide) (by decide) (by decide) (by decide) (by decide)
  exact (by decide : (("setup(\n    name=\"pkg\",\n    ").data)
      ++ litSetup ++ (("1.0.0").data) ++ '"' :: ',' :: (("\n)\n").data)
    = (("setup(\n    name=\"pkg\",\n    " ++ "version=\"1.0.0\",\n)\n").data)) ▸ h

/-- C3 (counterexample to the claim as stated): with no trailing comma the
read pattern still matches, but the `update_version_files` write pattern does
not, so the write is a silent no-op and re-reading returns the old version,
not the new one. -/
theorem update_version_files_no_comma_counterexample :
    get_setup_version
      (⟨("__version__ = \"1.0.0\"").data, ("setup(\n    version=\"1.0.0\"\n)\n").data⟩ : FS)
      = .ok (("1.0.0").data) ∧
    get_setup_version
      (update_version_files (("2.0.0").data)
        ⟨("__version__ = \"1.0.0\"").data, ("setup(\n    version=\"1.0.0\"\n)\n").data⟩)
      = .ok (("1.0.0").data) ∧
    (("1.0.0").data) ≠ (("2.0.0").data) := by
  refine ⟨rfl, rfl, by decide⟩

/-! ### C6: idempotence of the synchronizer -/

theorem litSetup_split : ∀ X : List Char, litSetup ++ X = verEq ++ '"' :: X :=
  fun _ => rfl

theorem verEq_ne_nil : verEq ≠ [] := by decide

theorem verEq_notQuote : ∀ x ∈ verEq, notQuote x = true := by decide

theorem takeWhile_from_decomp (A b r : List Char) (h : A = b ++ '"' :: r)
    (hb : ∀ x ∈ b, notQuote x = true) : A.takeWhile notQuote = b := by
  rw [h]
  exact (span_stop notQuote b '"' r hb (by decide)).1

theorem quote_decomp (s : List Char) (hsq : ¬ ∀ x ∈ s, notQuote x = true) :
    ∃ s2, s = s.takeWhile notQuote ++ '"' :: s2 := by
  have hds : s.dropWhile notQuote ≠ [] := by
    intro h0
    apply hsq
    intro x hx
    have hfull : s.takeWhile notQuote = s := by
      have hsp := List.takeWhile_append_dropWhile notQuote s
      rw [h0, List.append_nil] at hsp
      exact hsp
    exact takeWhile_mem notQuote s x (by rw [hfull]; exact hx)
  obtain ⟨d, s2, hd2⟩ : ∃ d s2, s.dropWhile notQuote = d :: s2 := by
    cases hc : s.dropWhile notQuote with
    | nil => exact absurd hc hds
    | cons d s2 => exact ⟨d, s2, rfl⟩
  have hdq : d = '"' := by
    have hfalse := dropWhile_head_false notQuote s d s2 hd2
    simpa [notQuote] using hfalse
  subst hdq
  refine ⟨s2, ?_⟩
  conv_lhs => rw [← List.takeWhile_append_dropWhile notQuote s]
  rw [hd2]

/-- The scan-transfer core for the `version="([^"]+)"` pattern: if no match
starts at a given position of `pre ++ version="v"...`, then none starts at
that position after the matched body is replaced (the two texts agree up to
and including the closing quote of the literal, and a successful match is
decided before the texts diverge). -/
theorem matchSetup_transfer (s v w t t' : List Char) (hs : s ≠ [])
    (hnone : matchSetupAt (s ++ (litSetup ++ v ++ '"' :: t)) = none) :
    matchSetupAt (s ++ (litSetup ++ w ++ '"' :: t')) = none := by
  cases hm : matchSetupAt (s ++ (litSetup ++ w ++ '"' :: t')) with
  | none => rfl
  | some bt =>
    obtain ⟨b', t''⟩ := bt
    exfalso
    obtain ⟨heq, hbne, hbq⟩ := (matchSetupAt_some_iff _ _ _).mp hm
    have hRtw : (litSetup ++ b' ++ '"' :: t'').takeWhile notQuote = verEq :=
      takeWhile_from_decomp _ verEq (b' ++ '"' :: t'')
        (by rw [List.append_assoc, litSetup_split]) verEq_notQuote
    by_cases hsq : ∀ x ∈ s, notQuote x = true
    · have hLtw : (s ++ (litSetup ++ w ++ '"' :: t')).takeWhile notQuote = s ++ verEq := by
        refine takeWhile_from_decomp _ (s ++ verEq) (w ++ '"' :: t') ?_ ?_
        · rw [List.append_assoc, litSetup_split]
          simp [List.append_assoc]
        · intro x hx
          rcases List.mem_append.mp hx with h1 | h1
          · exact hsq x h1
          · exact verEq_notQuote x h1
      have hcon := congrArg (List.takeWhile notQuote) heq
      rw [hLtw, hRtw] at hcon
      have hlen := congrArg List.length hcon
      rw [List.length_append] at hlen
      exact hs (List.length_eq_zero.mp (by omega))
    · obtain ⟨s2, hsdec⟩ := quote_decomp s hsq
      have hs1q : ∀ x ∈ s.takeWhile notQuote, notQuote x = true := takeWhile_mem notQuote s
      have hLtw : (s ++ (litSetup ++ w ++ '"' :: t')).takeWhile notQuote
          = s.takeWhile notQuote := by
        refine takeWhile_from_decomp _ _ (s2 ++ (litSetup ++ w ++ '"' :: t')) ?_ hs1q
        conv_lhs => rw [hsdec]
        simp [List.append_assoc]
      have hs1eq : s.takeWhile notQuote = verEq := by
        have hcon := congrArg (List.takeWhile notQuote) heq
        rw [hLtw, hRtw] at hcon
        exact hcon
      have hsfull : s = litSetup ++ s2 := by
        rw [hsdec, hs1eq]
        exact (litSetup_split s2).symm
      have heq2 : s2 ++ (litSetup ++ w ++ '"' :: t') = b' ++ '"' :: t'' := by
        have h3 : litSetup ++ (s2 ++ (litSetup ++ w ++ '"' :: t'))
            = litSetup ++ (b' ++ '"' :: t'') := by
          rw [← List.append_assoc, ← hsfull, heq, List.append_assoc]
        exact List.append_cancel_left h3
      have horig : matchSetupAt (s ++ (litSetup ++ v ++ '"' :: t)) ≠ none := by
        by_cases hs2q : ∀ x ∈ s2, notQuote x = true
        · have hshape : s ++ (litSetup ++ v ++ '"' :: t)
              = litSetup ++ (s2 ++ verEq) ++ '"' :: (v ++ '"' :: t) := by
            rw [hsfull,
                show litSetup ++ v ++ '"' :: t = verEq ++ '"' :: (v ++ '"' :: t) from by
                  rw [List.append_assoc, litSetup_split]]
            simp [List.append_assoc]
          rw [hshape, matchSetupAt_build (s2 ++ verEq) _
            (fun hx => verEq_ne_nil (List.append_eq_nil.mp hx).2)
            (fun x hx => (List.mem_append.mp hx).elim (hs2q x) (verEq_notQuote x))]
          simp
        · obtain ⟨u2, hu⟩ := quote_decomp s2 hs2q
          have hu1q : ∀ x ∈ s2.takeWhile notQuote, notQuote x = true :=
            takeWhile_mem notQuote s2
          have hu1 : s2.takeWhile notQuote = b' := by
            have hL : (s2 ++ (litSetup ++ w ++ '"' :: t')).takeWhile notQuote
                = s2.takeWhile notQuote := by
              refine takeWhile_from_decomp _ _ (u2 ++ (litSetup ++ w ++ '"' :: t')) ?_ hu1q
              conv_lhs => rw [hu]
              simp [List.append_assoc]
            have hR : (b' ++ '"' :: t'').takeWhile notQuote = b' :=
              takeWhile_from_decomp _ _ t'' rfl hbq
            have hcon := congrArg (List.takeWhile notQuote) heq2
            rw [hL, hR] at hcon
            exact hcon
          have hshape : s ++ (litSetup ++ v ++ '"' :: t)
              = litSetup ++ s2.takeWhile notQuote
                ++ '"' :: (u2 ++ (litSetup ++ v ++ '"' :: t)) := by
            rw [hsfull]
            conv_lhs => rw [hu]
            simp [List.append_assoc]
          rw [hshape, matchSetupAt_build _ _ (by rw [hu1]; exact hbne) hu1q]
          simp
      exact horig hnone

theorem failsAlong_setup_transfer (pre v w t t' : List Char)
    (hf : failsAlong matchSetupAt pre (litSetup ++ v ++ '"' :: t)) :
    failsAlong matchSetupAt pre (litSetup ++ w ++ '"' :: t') := by
  induction pre with
  | nil => trivial
  | cons c p ih =>
    obtain ⟨h1, h2⟩ := hf
    exact ⟨matchSetup_transfer (c :: p) v w t t' (by simp) h1, ih h2⟩

theorem searchSetup_subSetup (l b w : List Char) (h : searchSetup l = some b)
    (hw : w ≠ []) (hwq : ∀ x ∈ w, notQuote x = true) :
    searchSetup (subSetup w l) = some w := by
  unfold searchSetup at h ⊢
  unfold subSetup
  obtain ⟨pre, rest, t, rfl, hf, hm⟩ := reSearch_characterize _ _ _ h
  obtain ⟨rfl, hbne, hbq⟩ := (matchSetupAt_some_iff _ _ _).mp hm
  rw [reSub_fails_append _ _ _ _ hf]
  rw [reSub_match_l _ _ matchSetupAt_dec _ _ _ hm (by simp)]
  have hRX : (litSetup ++ w ++ ['"'])
        ++ reSub matchSetupAt (litSetup ++ w ++ ['"']) t
      = litSetup ++ w ++ '"' :: reSub matchSetupAt (litSetup ++ w ++ ['"']) t := by
    simp [List.append_assoc]
  have hf2 : failsAlong matchSetupAt pre
      ((litSetup ++ w ++ ['"']) ++ reSub matchSetupAt (litSetup ++ w ++ ['"']) t) := by
    rw [hRX]
    exact failsAlong_setup_transfer pre b w t _ hf
  rw [reSearch_fails_append _ _ _ hf2]
  have hm2 : matchSetupAt ((litSetup ++ w ++ ['"'])
        ++ reSub matchSetupAt (litSetup ++ w ++ ['"']) t)
      = some (w, reSub matchSetupAt (litSetup ++ w ++ ['"']) t) := by
    rw [hRX]
    exact matchSetupAt_build w _ hw hwq
  rw [reSearch_head _ _ _ _ hm2 (by simp)]

theorem sync_versions_eq_nosetup (fs : FS) (v : List Char)
    (h1 : searchInit fs.initContent = some v)
    (h2 : searchSetup fs.setupContent = none) :
    sync_versions fs = .ok (fs, false) := by
  unfold sync_versions get_current_version get_setup_version
  rw [h1, h2]

theorem sync_versions_eq_same (fs : FS) (v : List Char)
    (h1 : searchInit fs.initContent = some v)
    (h2 : searchSetup fs.setupContent = some v) :
    sync_versions fs = .ok (fs, false) := by
  unfold sync_versions get_current_version get_setup_version
  rw [h1, h2]
  simp

theorem sync_versions_eq_diff (fs : FS) (iv sv : List Char)
    (h1 : searchInit fs.initContent = some iv)
    (h2 : searchSetup fs.setupContent = some sv) (hne : iv ≠ sv) :
    sync_versions fs
      = .ok ({ fs with setupContent := subSetup iv fs.setupContent }, true) := by
  unfold sync_versions get_current_version get_setup_version
  rw [h1, h2]
  simp [hne]

theorem sync_versions_ok_inv (fs fs' : FS) (b : Bool)
    (h : sync_versions fs = .ok (fs', b)) :
    ∃ iv, searchInit fs.initContent = some iv ∧
      ((searchSetup fs.setupContent = none ∧ fs' = fs ∧ b = false) ∨
       (searchSetup fs.setupContent = some iv ∧ fs' = fs ∧ b = false) ∨
       (∃ sv, searchSetup fs.setupContent = some sv ∧ iv ≠ sv ∧
         fs' = { fs with setupContent := subSetup iv fs.setupContent } ∧ b = true)) := by
  cases hI : searchInit fs.initContent with
  | none =>
    rw [show sync_versions fs
          = .error (.valueError ("Could not find version in __init__.py")) from by
        unfold sync_versions get_current_version
        rw [hI]] at h
    exact absurd h (by simp)
  | some iv =>
    refine ⟨iv, rfl, ?_⟩
    cases hS : searchSetup fs.setupContent with
    | none =>
      rw [sync_versions_eq_nosetup fs iv hI hS] at h
      have h2 : (fs, false) = (fs', b) := by injection h
      injection h2 with h3 h4
      exact Or.inl ⟨rfl, h3.symm, h4.symm⟩
    | some sv =>
      by_cases hne : iv = sv
      · subst hne
        rw [sync_versions_eq_same fs iv hI hS] at h
        have h2 : (fs, false) = (fs', b) := by injection h
        injection h2 with h3 h4
        exact Or.inr (Or.inl ⟨rfl, h3.symm, h4.symm⟩)
      · rw [sync_versions_eq_diff fs iv sv hI hS hne] at h
        have h2 : ({ fs with setupContent := subSetup iv fs.setupContent }, true)
            = (fs', b) := by injection h
        injection h2 with h3 h4
        exact Or.inr (Or.inr ⟨sv, rfl, hne, h3.symm, h4.symm⟩)

theorem searchInit_props (l v : List Char) (h : searchInit l = some v) :
    v ≠ [] ∧ ∀ x ∈ v, notQuote x = true := by
  unfold searchInit at h
  obtain ⟨pre, rest, t, -, -, hm⟩ := reSearch_characterize _ _ _ h
  obtain ⟨q, q2, -, -, -, hne, hall⟩ := (matchInitAt_some_iff _ _ _).mp hm
  refine ⟨hne, fun x hx => ?_⟩
  have hq := hall x hx
  simp [notQuoteChar, isQuoteChar] at hq
  simp [notQuote, hq.1]

/-- C6: the synchronizer is idempotent: whenever one run of `sync_versions`
returns normally, a second run on the resulting file system reports no
change (`False`) and rewrites nothing. -/
theorem sync_versions_idempotent (fs fs' : FS) (b : Bool)
    (h : sync_versions fs = .ok (fs', b)) :
    sync_versions fs' = .ok (fs', false) := by
  obtain ⟨iv, hI, hcases⟩ := sync_versions_ok_inv fs fs' b h
  rcases hcases with ⟨hS, rfl, rfl⟩ | ⟨hS, rfl, rfl⟩ | ⟨sv, hS, hne, rfl, rfl⟩
  · exact sync_versions_eq_nosetup _ _ hI hS
  · exact sync_versions_eq_same _ _ hI hS
  · obtain ⟨hivne, hivq⟩ := searchInit_props _ _ hI
    have hS2 : searchSetup (subSetup iv fs.setupContent) = some iv :=
      searchSetup_subSetup _ _ _ hS hivne hivq
    exact sync_versions_eq_same _ _ hI hS2

theorem sync_versions_idempotent_witness :
    sync_versions ⟨("__version__ = \"1.2.3\"").data, ("setup(version=\"1.2.0\")").data⟩
      = .ok (⟨("__version__ = \"1.2.3\"").data, ("setup(version=\"1.2.3\")").data⟩, true) ∧
    sync_versions ⟨("__version__ = \"1.2.3\"").data, ("setup(version=\"1.2.3\")").data⟩
      = .ok (⟨("__version__ = \"1.2.3\"").data, ("setup(version=\"1.2.3\")").data⟩, false) :=
  ⟨rfl, sync_versions_idempotent
    ⟨("__version__ = \"1.2.3\"").data, ("setup(version=\"1.2.0\")").data⟩
    ⟨("__version__ = \"1.2.3\"").data, ("setup(version=\"1.2.3\")").data⟩ true rfl⟩

/-! ### C5: byte-level frame of the rewrites -/

theorem matchInitAt_build (q q2 : Char) (b t : List Char)
    (hq : isQuoteChar q = true) (hq2 : isQuoteChar q2 = true)
    (hne : b ≠ []) (hall : ∀ x ∈ b, notQuoteChar x = true) :
    matchInitAt (litInit ++ q :: (b ++ q2 :: t)) = some (b, t) :=
  (matchInitAt_some_iff _ _ _).mpr ⟨q, q2, hq, hq2, rfl, hne, hall⟩

theorem subInit_structured (pre v post w : List Char) (q q2 : Char)
    (hpre : '_' ∉ pre) (hpost : '_' ∉ post)
    (hq : isQuoteChar q = true) (hq2 : isQuoteChar q2 = true)
    (hv : v ≠ []) (hvq : ∀ x ∈ v, notQuoteChar x = true) :
    subInit w (pre ++ litInit ++ q :: v ++ q2 :: post)
      = pre ++ litInit ++ '"' :: w ++ '"' :: post := by
  unfold subInit
  rw [show pre ++ litInit ++ q :: v ++ q2 :: post
        = pre ++ (litInit ++ q :: (v ++ q2 :: post)) from by simp [List.append_assoc]]
  rw [reSub_fails_append _ _ _ _
    (failsAlong_of_head _ '_' matchInitAt_none_of_head pre _ hpre)]
  rw [reSub_match_l _ _ matchInitAt_dec _ _ _
    (matchInitAt_build q q2 v post hq hq2 hv hvq) (by simp)]
  rw [reSub_id_of_head _ _ '_' matchInitAt_none_of_head post hpost]
  simp [List.append_assoc]

theorem subSetupComma_structured (pre v post w : List Char)
    (hpre : 'v' ∉ pre) (hpost : 'v' ∉ post)
    (hv : v ≠ []) (hvq : ∀ x ∈ v, notQuote x = true) :
    subSetupComma w (pre ++ litSetup ++ v ++ '"' :: ',' :: post)
      = pre ++ litSetup ++ w ++ '"' :: ',' :: post := by
  unfold subSetupComma
  rw [show pre ++ litSetup ++ v ++ '"' :: ',' :: post
        = pre ++ (litSetup ++ v ++ '"' :: ',' :: post) from by simp [List.append_assoc]]
  rw [reSub_fails_append _ _ _ _
    (failsAlong_of_head _ 'v' matchSetupCommaAt_none_of_head pre _ hpre)]
  rw [reSub_match_l _ _ matchSetupCommaAt_dec _ _ _
    (matchSetupCommaAt_build v post hv hvq) (by simp)]
  rw [reSub_id_of_head _ _ 'v' matchSetupCommaAt_none_of_head post hpost]
  simp [List.append_assoc]

theorem subSetup_structured (pre v post w : List Char)
    (hpre : 'v' ∉ pre) (hpost : 'v' ∉ post)
    (hv : v ≠ []) (hvq : ∀ x ∈ v, notQuote x = true) :
    subSetup w (pre ++ litSetup ++ v ++ '"' :: post)
      = pre ++ litSetup ++ w ++ '"' :: post := by
  unfold subSetup
  rw [show pre ++ litSetup ++ v ++ '"' :: post
        = pre ++ (litSetup ++ v ++ '"' :: post) from by simp [List.append_assoc]]
  rw [reSub_fails_append _ _ _ _
    (failsAlong_of_head _ 'v' matchSetupAt_none_of_head pre _ hpre)]
  rw [reSub_match_l _ _ matchSetupAt_dec _ _ _
    (matchSetupAt_build v post hv hvq) (by simp)]
  rw [reSub_id_of_head _ _ 'v' matchSetupAt_none_of_head post hpost]
  simp [List.append_assoc]

theorem searchInit_structured (pre v post : List Char) (q q2 : Char)
    (hpre : '_' ∉ pre) (hq : isQuoteChar q = true) (hq2 : isQuoteChar q2 = true)
    (hv : v ≠ []) (hvq : ∀ x ∈ v, notQuoteChar x = true) :
    searchInit (pre ++ litInit ++ q :: v ++ q2 :: post) = some v := by
  unfold searchInit
  rw [show pre ++ litInit ++ q :: v ++ q2 :: post
        = pre ++ (litInit ++ q :: (v ++ q2 :: post)) from by simp [List.append_assoc]]
  rw [reSearch_fails_append _ _ _
    (failsAlong_of_head _ '_' matchInitAt_none_of_head pre _ hpre)]
  rw [reSearch_head _ _ _ _ (matchInitAt_build q q2 v post hq hq2 hv hvq) (by simp [litInit])]

theorem searchSetup_structured (pre v post : List Char)
    (hpre : 'v' ∉ pre) (hv : v ≠ []) (hvq : ∀ x ∈ v, notQuote x = true) :
    searchSetup (pre ++ litSetup ++ v ++ '"' :: post) = some v := by
  unfold searchSetup
  rw [show pre ++ litSetup ++ v ++ '"' :: post
        = pre ++ (litSetup ++ v ++ '"' :: post) from by simp [List.append_assoc]]
  rw [reSearch_fails_append _ _ _
    (failsAlong_of_head _ 'v' matchSetupAt_none_of_head pre _ hpre)]
  rw [reSearch_head _ _ _ _ (matchSetupAt_build v post hv hvq) (by simp)]

/-! ### C4: invalid CLI argument -/

/-- C4 (amended): an argument outside `{major, minor, patch, sync}` makes
`main` print usage and exit with status 1, with no bump applied and no tag
created; but the always-run sync step has already executed, so the primary
manifest is never written while the secondary may have been rewritten — only
when the two versions already agreed (sync reported `False`) is no file
modified. -/
theorem script_main_invalid_arg (fs fs1 : FS) (ws : Bool) (bt : String)
    (commits : List (List Char))
    (hbt : bt ∉ (["major", "minor", "patch", "sync"] : List String))
    (hs : sync_versions fs = .ok (fs1, ws)) :
    script_main [bt] commits fs = .ok ⟨fs1, 1, none⟩ ∧
    fs1.initContent = fs.initContent ∧ (ws = false → fs1 = fs) := by
  refine ⟨?_, ?_, ?_⟩
  · unfold script_main
    rw [hs]
    show (if bt ∉ (["major", "minor", "patch", "sync"] : List String) then
        (Except.ok ⟨fs1, 1, none⟩ : Except PyErr MainResult)
      else if bt = ("sync") then .ok ⟨fs1, 0, none⟩
      else bumpAndTag bt fs1) = .ok ⟨fs1, 1, none⟩
    rw [if_pos hbt]
  · obtain ⟨iv, hI, hc⟩ := sync_versions_ok_inv fs fs1 ws hs
    rcases hc with ⟨-, rfl, -⟩ | ⟨-, rfl, -⟩ | ⟨sv, -, -, rfl, -⟩ <;> rfl
  · intro hws
    obtain ⟨iv, hI, hc⟩ := sync_versions_ok_inv fs fs1 ws hs
    rcases hc with ⟨-, rfl, -⟩ | ⟨-, rfl, -⟩ | ⟨sv, -, -, rfl, hb⟩
    · rfl
    · rfl
    · subst hb
      simp at hws

theorem script_main_invalid_arg_witness :
    script_main [("bogus")] []
      ⟨("__version__ = \"1.2.3\"").data, ("setup(version=\"1.2.3\")").data⟩
      = .ok ⟨⟨("__version__ = \"1.2.3\"").data, ("setup(version=\"1.2.3\")").data⟩, 1, none⟩ := by
  have h := script_main_invalid_arg
    ⟨("__version__ = \"1.2.3\"").data, ("setup(version=\"1.2.3\")").data⟩
    ⟨("__version__ = \"1.2.3\"").data, ("setup(version=\"1.2.3\")").data⟩
    false ("bogus") [] (by decide) rfl
  exact h.1

/-- C4 (counterexample to the claim as stated): with mismatched manifest
versions, an invocation with the invalid argument `bogus` still rewrites the
secondary manifest (the sync step runs before the argument check), so "no
file's content is modified by that invocation" fails on the code. -/
theorem script_main_invalid_arg_counterexample :
    script_main [("bogus")] []
      ⟨("__version__ = \"1.2.3\"").data, ("setup(version=\"1.2.0\",)").data⟩
      = .ok ⟨⟨("__version__ = \"1.2.3\"").data, ("setup(version=\"1.2.3\",)").data⟩, 1, none⟩ ∧
    (("setup(version=\"1.2.3\",)").data) ≠ (("setup(version=\"1.2.0\",)").data) :=
  ⟨rfl, by decide⟩

/-! ### C9: commit retrieval with git modelled as an oracle -/

/-- C9 (amended): commit retrieval: if the describe-tag command succeeds and
the range log succeeds, the result is the parsed range log (the commits
strictly after the tag); if describe fails (no tags yet) the full history is
parsed instead, non-fatally; a non-zero exit of the range-log command is
caught by the same handler as the no-tags case and silently produces the
full-history result as well (it is not distinguished); only a failure of the
fallback full-history log propagates as an error. -/
theorem get_commits_model (g : Git) (dOut lOut fOut : List Char) :
    (g.describeOut = .ok dOut → g.logRangeOut (pyStrip dOut) = .ok lOut →
      get_commits_since_last_tag g = .ok (pySplitCommits lOut)) ∧
    (g.describeOut = .error () → g.logFullOut = .ok fOut →
      get_commits_since_last_tag g = .ok (pySplitCommits fOut)) ∧
    (g.describeOut = .ok dOut → g.logRangeOut (pyStrip dOut) = .error () →
      g.logFullOut = .ok fOut →
      get_commits_since_last_tag g = .ok (pySplitCommits fOut)) ∧
    (g.describeOut = .error () → g.logFullOut = .error () →
      get_commits_since_last_tag g = .error ()) := by
  refine ⟨?_, ?_, ?_, ?_⟩
  · intro h1 h2
    unfold get_commits_since_last_tag
    rw [h1]
    have hred : (match g.logRangeOut (pyStrip dOut) with
        | Except.error _ => fullHistory g
        | Except.ok out => (Except.ok (pySplitCommits out) : Except Unit (List (List Char))))
        = Except.ok (pySplitCommits lOut) := by
      rw [h2]
    exact hred
  · intro h1 h2
    unfold get_commits_since_last_tag
    rw [h1]
    show fullHistory g = Except.ok (pySplitCommits fOut)
    unfold fullHistory
    rw [h2]
  · intro h1 h2 h3
    unfold get_commits_since_last_tag
    rw [h1]
    have hred : (match g.logRangeOut (pyStrip dOut) with
        | Except.error _ => fullHistory g
        | Except.ok out => (Except.ok (pySplitCommits out) : Except Unit (List (List Char))))
        = Except.ok (pySplitCommits fOut) := by
      rw [h2]
      show fullHistory g = Except.ok (pySplitCommits fOut)
      unfold fullHistory
      rw [h3]
    exact hred
  · intro h1 h2
    unfold get_commits_since_last_tag
    rw [h1]
    show fullHistory g = Except.error ()
    unfold fullHistory
    rw [h2]

theorem get_commits_model_witness :
    get_commits_since_last_tag
      ⟨.ok (("v1.0.0\n").data),
       fun r => if r = ("v1.0.0").data then .ok (("abc fix: x").data) else .error (),
       .error ()⟩
      = .ok [("abc fix: x").data] ∧
    get_commits_since_last_tag
      ⟨.error (), fun _ => .error (), .ok (("zzz feat: y").data)⟩
      = .ok [("zzz feat: y").data] := by
  constructor
  · exact (get_commits_model
      ⟨.ok (("v1.0.0\n").data),
       fun r => if r = ("v1.0.0").data then .ok (("abc fix: x").data) else .error (),
       .error ()⟩
      (("v1.0.0\n").data) (("abc fix: x").data) []).1 rfl rfl
  · exact (get_commits_model
      ⟨.error (), fun _ => .error (), .ok (("zzz feat: y").data)⟩
      [] [] (("zzz feat: y").data)).2.1 rfl rfl

/-- C9 (counterexample to the claim as stated): a failing range log after a
successful describe is not distinguished from the no-tags case: the run does
not fail, it silently returns the full history. -/
theorem get_commits_log_failure_counterexample :
    get_commits_since_last_tag
      ⟨.ok (("v1.0.0").data), fun _ => .error (), .ok (("abc123 fix: offset").data)⟩
      = .ok [("abc123 fix: offset").data] ∧
    Git.logRangeOut
      ⟨.ok (("v1.0.0").data), fun _ => .error (), .ok (("abc123 fix: offset").data)⟩
      (("v1.0.0").data) = .error () :=
  ⟨rfl, rfl⟩

theorem reSub_id_of_search_none (m : List Char → Option (List Char × List Char))
    (r l : List Char) (h : reSearch m l = none) : reSub m r l = l := by
  induction l with
  | nil => rfl
  | cons c cs ih =>
    cases hm : m (c :: cs) with
    | some bt =>
      obtain ⟨b, t⟩ := bt
      have h2 : reSearch m (c :: cs) = some b := by
        simp only [reSearch]
        rw [hm]
      rw [h2] at h
      exact absurd h (by simp)
    | none =>
      have h' : reSearch m cs = none := by
        simp only [reSearch] at h
        rw [hm] at h
        exact h
      rw [reSub_skip m r c cs hm, ih h']

theorem subSetup_frame (l b w : List Char) (h : searchSetup l = some b) :
    ∃ pre t, l = pre ++ (litSetup ++ b ++ '"' :: t) ∧
      subSetup w l = pre ++ (litSetup ++ w ++ '"' :: subSetup w t) := by
  unfold searchSetup at h
  obtain ⟨pre, rest, t0, rfl, hf, hm⟩ := reSearch_characterize _ _ _ h
  obtain ⟨rfl, hbne, hbq⟩ := (matchSetupAt_some_iff _ _ _).mp hm
  refine ⟨pre, t0, rfl, ?_⟩
  unfold subSetup
  rw [reSub_fails_append _ _ _ _ hf,
      reSub_match_l _ _ matchSetupAt_dec _ _ _ hm (by simp)]
  congr 1
  simp [List.append_assoc]

theorem subSetupComma_frame (l b w : List Char)
    (h : reSearch matchSetupCommaAt l = some b) :
    ∃ pre t, l = pre ++ (litSetup ++ b ++ '"' :: ',' :: t) ∧
      subSetupComma w l = pre ++ (litSetup ++ w ++ '"' :: ',' :: subSetupComma w t) := by
  obtain ⟨pre, rest, t0, rfl, hf, hm⟩ := reSearch_characterize _ _ _ h
  obtain ⟨rfl, hbne, hbq⟩ := (matchSetupCommaAt_some_iff _ _ _).mp hm
  refine ⟨pre, t0, rfl, ?_⟩
  unfold subSetupComma
  rw [reSub_fails_append _ _ _ _ hf,
      reSub_match_l _ _ matchSetupCommaAt_dec _ _ _ hm (by simp)]
  congr 1
  simp [List.append_assoc]

theorem subInit_frame (l b w : List Char) (h : searchInit l = some b) :
    ∃ pre q q2 t, isQuoteChar q = true ∧ isQuoteChar q2 = true ∧
      l = pre ++ (litInit ++ q :: (b ++ q2 :: t)) ∧
      subInit w l = pre ++ (litInit ++ '"' :: (w ++ '"' :: subInit w t)) := by
  unfold searchInit at h
  obtain ⟨pre, rest, t0, rfl, hf, hm⟩ := reSearch_characterize _ _ _ h
  obtain ⟨q, q2, hq, hq2, rfl, hbne, hbq⟩ := (matchInitAt_some_iff _ _ _).mp hm
  refine ⟨pre, q, q2, t0, hq, hq2, rfl, ?_⟩
  unfold subInit
  rw [reSub_fails_append _ _ _ _ hf,
      reSub_match_l _ _ matchInitAt_dec _ _ _ hm (by simp)]
  congr 1
  simp [List.append_assoc]

/-- C5: the rewrites only change the matched version regions, for arbitrary
surrounding text.  Whenever a pattern matches, the file content decomposes as
`pre ++ matched-assignment ++ t` with `pre` the bytes before the first match,
and the rewrite yields `pre` byte-for-byte, the replaced assignment, and the
remainder `t` rescanned the same way — so if `t` holds no further match it
too is returned byte-for-byte (conjuncts for both `update_version_files`
patterns and for the sync rewrite; when a pattern does not match at all, the
file's bytes are completely unchanged).  The matched region of the
`__init__.py` pattern includes the quote characters, which the replacement
normalises to double quotes. -/
theorem rewrite_frame (fs : FS) (w iv b1 b2 b3 : List Char) :
    (searchInit fs.initContent = some b1 →
      ∃ pre q q2 t, isQuoteChar q = true ∧ isQuoteChar q2 = true ∧
        fs.initContent = pre ++ (litInit ++ q :: (b1 ++ q2 :: t)) ∧
        (update_version_files w fs).initContent
          = pre ++ (litInit ++ '"' :: (w ++ '"' :: subInit w t)) ∧
        (searchInit t = none → subInit w t = t)) ∧
    (reSearch matchSetupCommaAt fs.setupContent = some b2 →
      ∃ pre t,
        fs.setupContent = pre ++ (litSetup ++ b2 ++ '"' :: ',' :: t) ∧
        (update_version_files w fs).setupContent
          = pre ++ (litSetup ++ w ++ '"' :: ',' :: subSetupComma w t) ∧
        (reSearch matchSetupCommaAt t = none → subSetupComma w t = t)) ∧
    (searchInit fs.initContent = none →
      (update_version_files w fs).initContent = fs.initContent) ∧
    (reSearch matchSetupCommaAt fs.setupContent = none →
      (update_version_files w fs).setupContent = fs.setupContent) ∧
    (searchInit fs.initContent = some iv → searchSetup fs.setupContent = some b3 →
      iv ≠ b3 →
      ∃ pre t,
        fs.setupContent = pre ++ (litSetup ++ b3 ++ '"' :: t) ∧
        sync_versions fs = .ok
          (⟨fs.initContent, pre ++ (litSetup ++ iv ++ '"' :: subSetup iv t)⟩, true) ∧
        (searchSetup t = none → subSetup iv t = t)) := by
  refine ⟨?_, ?_, ?_, ?_, ?_⟩
  · intro hI
    obtain ⟨pre, q, q2, t, hq, hq2, hdec, hsub⟩ := subInit_frame fs.initContent b1 w hI
    exact ⟨pre, q, q2, t, hq, hq2, hdec, hsub,
      fun hn => reSub_id_of_search_none _ _ _ hn⟩
  · intro hS
    obtain ⟨pre, t, hdec, hsub⟩ := subSetupComma_frame fs.setupContent b2 w hS
    exact ⟨pre, t, hdec, hsub, fun hn => reSub_id_of_search_none _ _ _ hn⟩
  · intro hI
    exact reSub_id_of_search_none _ _ _ hI
  · intro hS
    exact reSub_id_of_search_none _ _ _ hS
  · intro hI hS hne
    obtain ⟨pre, t, hdec, hsub⟩ := subSetup_frame fs.setupContent b3 iv hS
    refine ⟨pre, t, hdec, ?_, fun hn => reSub_id_of_search_none _ _ _ hn⟩
    rw [sync_versions_eq_diff fs iv b3 hI hS hne, hsub]

theorem rewrite_frame_witness :
    (∃ pre q q2 t, isQuoteChar q = true ∧ isQuoteChar q2 = true ∧
      (⟨("ver_x = 1\n__version__ = '1.2.3'\n").data,
        ("setup(\n    v=2,\n    version=\"1.2.3\",\n)\n").data⟩ : FS).initContent
        = pre ++ (litInit ++ q :: ((("1.2.3").data) ++ q2 :: t)) ∧
      (update_version_files (("9.9.9").data)
        ⟨("ver_x = 1\n__version__ = '1.2.3'\n").data,
         ("setup(\n    v=2,\n    version=\"1.2.3\",\n)\n").data⟩).initContent
        = pre ++ (litInit ++ '"' :: ((("9.9.9").data)
            ++ '"' :: subInit (("9.9.9").data) t)) ∧
      (searchInit t = none → subInit (("9.9.9").data) t = t)) ∧
    (∃ pre t,
      (⟨("ver_x = 1\n__version__ = '1.2.3'\n").data,
        ("setup(\n    v=2,\n    version=\"1.2.3\",\n)\n").data⟩ : FS).setupContent
        = pre ++ (litSetup ++ (("1.2.3").data) ++ '"' :: ',' :: t) ∧
      (update_version_files (("9.9.9").data)
        ⟨("ver_x = 1\n__version__ = '1.2.3'\n").data,
         ("setup(\n    v=2,\n    version=\"1.2.3\",\n)\n").data⟩).setupContent
        = pre ++ (litSetup ++ (("9.9.9").data)
            ++ '"' :: ',' :: subSetupComma (("9.9.9").data) t) ∧
      (reSearch matchSetupCommaAt t = none → subSetupComma (("9.9.9").data) t = t)) ∧
    ((update_version_files (("9.9.9").data)
        ⟨("nothing to see\n").data, ("irrelevant\n").data⟩).initContent
      = ("nothing to see\n").data) ∧
    ((update_version_files (("9.9.9").data)
        ⟨("nothing to see\n").data, ("irrelevant\n").data⟩).setupContent
      = ("irrelevant\n").data) ∧
    (∃ pre t,
      (⟨("__version__ = \"2.0.0\"\n").data,
        ("v8: version=\"1.0.0\" end\n").data⟩ : FS).setupContent
        = pre ++ (litSetup ++ (("1.0.0").data) ++ '"' :: t) ∧
      sync_versions ⟨("__version__ = \"2.0.0\"\n").data,
          ("v8: version=\"1.0.0\" end\n").data⟩
        = .ok (⟨("__version__ = \"2.0.0\"\n").data,
            pre ++ (litSetup ++ (("2.0.0").data)
              ++ '"' :: subSetup (("2.0.0").data) t)⟩, true) ∧
      (searchSetup t = none → subSetup (("2.0.0").data) t = t)) := by
  refine ⟨?_, ?_, ?_, ?_, ?_⟩
  · exact (rewrite_frame
      ⟨("ver_x = 1\n__version__ = '1.2.3'\n").data,
       ("setup(\n    v=2,\n    version=\"1.2.3\",\n)\n").data⟩
      (("9.9.9").data) [] (("1.2.3").data) (("1.2.3").data) []).1 rfl
  · exact (rewrite_frame
      ⟨("ver_x = 1\n__version__ = '1.2.3'\n").data,
       ("setup(\n    v=2,\n    version=\"1.2.3\",\n)\n").data⟩
      (("9.9.9").data) [] (("1.2.3").data) (("1.2.3").data) []).2.1 rfl
  · exact (rewrite_frame
      ⟨("nothing to see\n").data, ("irrelevant\n").data⟩
      (("9.9.9").data) [] [] [] []).2.2.1 rfl
  · exact (rewrite_frame
      ⟨("nothing to see\n").data, ("irrelevant\n").data⟩
      (("9.9.9").data) [] [] [] []).2.2.2.1 rfl
  · exact (rewrite_frame
      ⟨("__version__ = \"2.0.0\"\n").data, ("v8: version=\"1.0.0\" end\n").data⟩
      [] (("2.0.0").data) [] [] (("1.0.0").data)).2.2.2.2 rfl rfl (by decide)
